import Mathlib

/-
  Verification development for the chrono-server session aggregation engine.

  The definitions below are a shallow embedding of the TypeScript sources:
  the session boundary service (sessionBoundary.ts), the session aggregation
  service (sessions.ts) and the context extractor (contextExtractor.ts).

  Modelling conventions, chosen so that every definition is executable and
  kernel-evaluable on concrete inputs:
  - JS Date values are modelled as integer milliseconds since the epoch
    (toISOString is injective on these, so equality of the modelled
    timestamps is equality of the emitted ISO strings);
  - JS number arithmetic on confidences is modelled with exact rationals,
    written with mkRat so that comparisons reduce in the kernel;
  - divisions by 1000 followed by comparisons or Math.round are carried
    out on the millisecond integers: gap > 300 on seconds is the same
    test as gapMs > 300000, and Math.round(ms / 1000) is
    (ms + 500).fdiv 1000, exactly;
  - JS strings are manipulated through their character lists; toLowerCase,
    trim, substring and includes are modelled for the ASCII titles,
    application names and domains the engine works with;
  - string-keyed Maps are association lists looked up with List.lookup;
  - crypto.randomUUID is an external source of nondeterminism and is
    modelled as a supply of identifier strings, one per created session.
-/

namespace Chrono

/-- JS truthiness of an optional string: null, undefined and the empty
string are falsy, every other string is truthy. -/
def optTruthy : Option String → Bool
  | some s => s != ""
  | none => false

/-- JS toLowerCase, modelled characterwise (faithful for the ASCII data
the engine compares). -/
def lowerStr (s : String) : String := ⟨s.data.map Char.toLower⟩

/-- JS String.prototype.includes: sub occurs contiguously in hay
(case-sensitive; the sources lowercase both sides first where they need
case-insensitivity). -/
def jsIncludes (hay sub : String) : Bool :=
  hay.data.tails.any (fun t => sub.data.isPrefixOf t)

/-- Case-insensitive substring test, as the sources write
a.toLowerCase().includes(b.toLowerCase()). -/
def includesCI (hay sub : String) : Bool :=
  jsIncludes (lowerStr hay) (lowerStr sub)

/-- A case-insensitive regex alternation of literal words, applied with
test(): some alternative occurs as a substring. This models the
/A|B|C/i.test(appName) checks of contextExtractor.ts, whose alternatives
contain no regex metacharacters. -/
def regexTestCI (alts : List String) (s : String) : Bool :=
  alts.any (fun a => includesCI s a)

/-- JS whitespace characters stripped by String.prototype.trim (the ASCII
ones; the engine only trims window titles and document paths). -/
def jsIsWS (c : Char) : Bool :=
  c = ' ' || c = '\t' || c = '\n' || c = '\r'

/-- JS String.prototype.trim. -/
def jsTrim (s : String) : String :=
  ⟨((s.data.dropWhile jsIsWS).reverse.dropWhile jsIsWS).reverse⟩

/-- JS substring(0, n): the first n characters. -/
def jsTake (s : String) (n : Nat) : String := ⟨s.data.take n⟩

/-- JS string length (the titles involved are ASCII, where UTF-16 length
and character count agree). -/
def jsLen (s : String) : Nat := s.data.length

/-! ## URL parsing (contextExtractor.ts: extractDomainAndPath) -/

/-- Finds the first scheme separator "://" and returns what follows it.
None when the string has no such separator, in which case the WHATWG URL
constructor that the source calls throws and the source returns null. -/
def splitUrlSep : List Char → Option (List Char)
  | [] => none
  | ':' :: '/' :: '/' :: rest => some rest
  | _ :: cs => splitUrlSep cs

/-- Models new URL(url) restricted to the absolute scheme://host/path
URLs the tracker records (no userinfo): the hostname is the host portion
before any slash, query, fragment or port, lowercased as the URL standard
requires; the pathname starts at the first slash and runs to any query or
fragment, defaulting to "/". -/
def parseUrlHostPath (url : String) : Option (String × String) :=
  match splitUrlSep url.data with
  | none => none
  | some rest =>
    let host := rest.takeWhile (fun c => !(c = '/' || c = '?' || c = '#' || c = ':'))
    if host.isEmpty then none
    else
      let tail0 := rest.drop host.length
      let path := (tail0.dropWhile (fun c => !(c = '/'))).takeWhile
        (fun c => !(c = '?' || c = '#'))
      let path := if path.isEmpty then ['/'] else path
      some (lowerStr ⟨host⟩, ⟨path⟩)

/-- extractDomainAndPath: parse the URL, strip a leading "www." from the
hostname, and turn a bare "/" pathname into the empty path. -/
def extractDomainAndPath (url : String) : Option (String × String) :=
  (parseUrlHostPath url).map (fun hp =>
    let domain :=
      if "www.".data.isPrefixOf hp.1.data then (⟨hp.1.data.drop 4⟩ : String) else hp.1
    let path := if hp.2 = "/" then "" else hp.2
    (domain, path))

/-- extractDomain: null for a missing or empty URL (JS falsiness), else
the domain of extractDomainAndPath. -/
def extractDomain (url : Option String) : Option String :=
  match url with
  | none => none
  | some u => if u = "" then none else (extractDomainAndPath u).map Prod.fst

/-- The static related-domain groups of areUrlsRelated. -/
def relatedDomainGroups : List (List String) :=
  [["github.com", "githubusercontent.com", "github.io", "gist.github.com"],
   ["google.com", "googleapis.com", "googleusercontent.com"],
   ["stackoverflow.com", "stackexchange.com", "askubuntu.com", "serverfault.com"],
   ["amazon.com", "aws.amazon.com", "console.aws.amazon.com"],
   ["microsoft.com", "azure.com", "live.com", "office.com"]]

/-- areUrlsRelated: same domain, or both domains fall in one static
related-domain group (matched by substring containment in either
direction, as the source writes it). -/
def areUrlsRelated (url1 url2 : Option String) : Bool :=
  if !(optTruthy url1) || !(optTruthy url2) then false
  else
    match extractDomain url1, extractDomain url2 with
    | some d1, some d2 =>
      if d1 = "" || d2 = "" then false
      else if d1 = d2 then true
      else relatedDomainGroups.any (fun group =>
        (group.any (fun g => jsIncludes d1 g || jsIncludes g d1)) &&
        (group.any (fun g => jsIncludes d2 g || jsIncludes g d2)))
    | _, _ => false

/-! ## Wildcard domain patterns (sessionBoundary.ts: matchesDomainPattern) -/

/-- Anchored glob matching: a star matches any run of characters, every
other pattern character matches itself, and the whole character list must
be consumed. This is what the source regex does: it escapes every dot,
turns every star into a dot-star, and anchors with a caret and a dollar;
domain patterns contain no further regex metacharacters. -/
def globAux : List Char → List Char → Bool
  | [], cs => cs.isEmpty
  | c :: ps, cs =>
    if c = '*' then cs.tails.any (fun t => globAux ps t)
    else
      match cs with
      | [] => false
      | d :: cs2 => c = d && globAux ps cs2

/-- matchesDomainPattern: the compiled regex carries the i flag, so both
sides are compared lowercased. -/
def matchesDomainPattern (domain pattern : String) : Bool :=
  globAux (lowerStr pattern).data (lowerStr domain).data

/-! ## Events and the category lookup cache -/

/-- An activity event row as the aggregation engine consumes it
(db/schema.ts: appName and windowTitle are not null; bundle identifier,
document path, URL and duration are nullable; duration defaults to 5). -/
structure Event where
  appName : String
  windowTitle : String := ""
  bundleIdentifier : Option String := none
  documentPath : Option String := none
  url : Option String := none
  isIdle : Bool := false
  timestampMs : Int
  duration : Option Int := none
deriving Repr, DecidableEq

/-- event.duration ?? 5. -/
def evDuration (e : Event) : Int := e.duration.getD 5

/-- A placeholder event used to totalize head and last lookups on the
member-event lists; the source only ever reads those on nonempty lists. -/
def defaultEvent : Event := { appName := "", timestampMs := 0 }

/-- The category lookup snapshot built by getCategoryLookupMaps: exact
app-name, bundle-id and domain maps plus the ordered wildcard patterns. -/
structure CategoryLookup where
  apps : List (String × String) := []
  bundles : List (String × String) := []
  domains : List (String × String) := []
  domainPatterns : List (String × String) := []
deriving Repr, DecidableEq

/-- getCategoryForEvent: null without a snapshot; else bundle id first
(when the event carries a truthy one), then app name, then, for events
with a truthy URL, the exact domain and finally the ordered wildcard
patterns. The source also checks each map hit for JS truthiness before
returning it. -/
def getCategoryForEvent (lookup : Option CategoryLookup) (e : Event) : Option String :=
  match lookup with
  | none => none
  | some L =>
    let byBundle : Option String :=
      if optTruthy e.bundleIdentifier then
        match L.bundles.lookup (e.bundleIdentifier.getD "") with
        | some c => if c != "" then some c else none
        | none => none
      else none
    match byBundle with
    | some c => some c
    | none =>
      let byApp : Option String :=
        match L.apps.lookup e.appName with
        | some c => if c != "" then some c else none
        | none => none
      match byApp with
      | some c => some c
      | none =>
        if optTruthy e.url then
          match extractDomain e.url with
          | some d =>
            if d != "" then
              match
                (match L.domains.lookup d with
                 | some c => if c != "" then some c else none
                 | none => none) with
              | some c => some c
              | none =>
                (L.domainPatterns.find? (fun pc => matchesDomainPattern d pc.1)).map Prod.snd
            else none
          | none => none
        else none

/-- The six valid activity categories (types/api.ts). -/
def validCategories : List String :=
  ["development", "design", "communication", "research", "distraction", "other"]

/-- toActivityCategory: keep a truthy category that is one of the six
valid ones, map everything else (null or unrecognized) to "other". -/
def toActivityCategory (c : Option String) : String :=
  match c with
  | some s => if s != "" && validCategories.contains s then s else "other"
  | none => "other"

/-! ## Boundary decisions (sessionBoundary.ts) -/

/-- The result of comparing two adjacent events. -/
structure BoundaryDecision where
  shouldMerge : Bool
  confidence : ℚ
  reason : String
  suggestedCategory : Option String := none
deriving Repr, DecidableEq

/-- The static related-app groups (RELATED_APP_GROUPS). Each inner list
is one group. -/
def RELATED_APP_GROUPS : List (List String) :=
  [["Visual Studio Code", "Code", "Cursor", "Xcode", "IntelliJ IDEA", "WebStorm", "PyCharm"],
   ["Ghostty", "Terminal", "iTerm2", "Alacritty", "Hyper", "Warp", "Kitty"],
   ["Bruno", "Postman", "Insomnia"],
   ["Figma", "Sketch", "Adobe XD"],
   ["Photoshop", "Illustrator", "InDesign"],
   ["Slack", "Discord", "Teams", "Zoom"],
   ["Firefox", "Chrome", "Safari", "Edge", "Brave", "Arc"]]

/-- Membership of an app in one group: some group member contains the app
name or is contained in it, case-insensitively. -/
def appInGroup (group : List String) (app : String) : Bool :=
  group.any (fun g => includesCI app g || includesCI g app)

/-- areAppsRelated: both apps fall in one and the same group. -/
def areAppsRelated (app1 app2 : String) : Bool :=
  RELATED_APP_GROUPS.any (fun group => appInGroup group app1 && appInGroup group app2)

/-- isBrowser: the app name contains a known browser name,
case-insensitively. -/
def isBrowser (appName : String) : Bool :=
  ["Firefox", "Chrome", "Safari", "Edge", "Brave", "Arc"].any
    (fun b => includesCI appName b)

/-- getUncategorizedValue: the domain for a browser event with a URL,
else the app name. -/
def getUncategorizedValue (e : Event) : String :=
  if isBrowser e.appName && optTruthy e.url then
    (extractDomain e.url).getD e.appName
  else e.appName

/-- buildCacheKey: domain (or app name when no domain parses) for browser
events, app name otherwise, joined with a bar. -/
def buildCacheKey (prev curr : Event) : String :=
  let prevKey :=
    if isBrowser prev.appName then (extractDomain (some (prev.url.getD ""))).getD prev.appName
    else prev.appName
  let currKey :=
    if isBrowser curr.appName then (extractDomain (some (curr.url.getD ""))).getD curr.appName
    else curr.appName
  prevKey ++ "|" ++ currKey

/-- The collaborators the boundary service consults: the category lookup
snapshot (null before any refresh), whether the AI model is available,
and the AI boundary call. askAIForBoundary catches its own call and parse
errors and always produces a decision, so it is modelled as a total
function supplied from outside (its answers come from the network). -/
structure BoundaryEnv where
  categoryLookup : Option CategoryLookup
  aiAvailable : Bool
  askAI : Event → Event → BoundaryDecision

/-- A category suggestion recorded for user review. -/
structure Suggestion where
  kind : String
  value : String
  category : String
  confidence : ℚ
deriving Repr, DecidableEq

/-- The mutable module-level state the boundary service touches: the AI
decision cache and the suggestions recorded through the categories
service. -/
structure BoundaryState where
  aiDecisionCache : List (String × BoundaryDecision) := []
  suggestions : List Suggestion := []
deriving Repr, DecidableEq

/-- decideByCategory: with both categories resolved, merge at 0.85 when
they agree and split at 0.9 when they differ; otherwise consult the AI
decision cache, then the AI collaborator when available (caching its
answer and recording a confident category suggestion), and fall back to
the conservative split at confidence 0.5. -/
def decideByCategory (env : BoundaryEnv) (st : BoundaryState) (prev curr : Event) :
    BoundaryDecision × BoundaryState :=
  let prevCat := getCategoryForEvent env.categoryLookup prev
  let currCat := getCategoryForEvent env.categoryLookup curr
  if optTruthy prevCat && optTruthy currCat then
    if prevCat = currCat then
      ({ shouldMerge := true, confidence := mkRat 85 100,
         reason := "Same category (" ++ prevCat.getD "" ++ ")" }, st)
    else
      ({ shouldMerge := false, confidence := mkRat 9 10,
         reason := "Different categories (" ++ prevCat.getD "" ++ " â†’ " ++ currCat.getD "" ++ ")" }, st)
  else
    let uncategorizedItem : String × String :=
      if !(optTruthy currCat) then
        ((if isBrowser curr.appName then "domain" else "app"), getUncategorizedValue curr)
      else
        ((if isBrowser prev.appName then "domain" else "app"), getUncategorizedValue prev)
    let cacheKey := buildCacheKey prev curr
    match st.aiDecisionCache.lookup cacheKey with
    | some cached => (cached, st)
    | none =>
      if env.aiAvailable then
        let aiDecision := env.askAI prev curr
        let st1 := { st with aiDecisionCache := (cacheKey, aiDecision) :: st.aiDecisionCache }
        let st2 :=
          if optTruthy aiDecision.suggestedCategory && aiDecision.confidence ≥ mkRat 6 10 then
            { st1 with suggestions := st1.suggestions ++
                [{ kind := uncategorizedItem.1, value := uncategorizedItem.2,
                   category := aiDecision.suggestedCategory.getD "",
                   confidence := aiDecision.confidence }] }
          else st1
        (aiDecision, st2)
      else
        ({ shouldMerge := false, confidence := mkRat 5 10,
           reason := "Uncategorized - conservative split" }, st)

/-- shouldMergeEvents, rule by rule as the source orders them. The time
gap is computed by the source as milliseconds over 1000 compared with
MAX_SESSION_GAP = 300, which is the millisecond comparison written here;
the reported rounded minutes are Math.round(gap / 60) =
floor(gapMs / 60000 + 1/2). -/
def shouldMergeEvents (env : BoundaryEnv) (st : BoundaryState) (prev curr : Event) :
    BoundaryDecision × BoundaryState :=
  let gapMs : Int := curr.timestampMs - prev.timestampMs
  if gapMs > 300 * 1000 then
    ({ shouldMerge := false, confidence := 1,
       reason := "Large time gap (" ++ toString ((gapMs + 30000).fdiv 60000) ++ "min)" }, st)
  else if prev.isIdle && evDuration prev > 120 then
    ({ shouldMerge := false, confidence := 1, reason := "Extended idle period" }, st)
  else if prev.appName = curr.appName then
    if isBrowser prev.appName && optTruthy prev.url && optTruthy curr.url then
      if extractDomain prev.url = extractDomain curr.url then
        ({ shouldMerge := true, confidence := 1, reason := "Same app and domain" }, st)
      else if areUrlsRelated prev.url curr.url then
        ({ shouldMerge := true, confidence := mkRat 9 10,
           reason := "Related domains (same service ecosystem)" }, st)
      else decideByCategory env st prev curr
    else
      ({ shouldMerge := true, confidence := 1, reason := "Same application" }, st)
  else if areAppsRelated prev.appName curr.appName then
    let prevCat := getCategoryForEvent env.categoryLookup prev
    let currCat := getCategoryForEvent env.categoryLookup curr
    if optTruthy prevCat && optTruthy currCat && prevCat = currCat then
      ({ shouldMerge := true, confidence := mkRat 9 10,
         reason := "Related apps in same category (" ++ prevCat.getD "" ++ ")" }, st)
    else
      ({ shouldMerge := true, confidence := mkRat 75 100,
         reason := "Related application group" }, st)
  else
    decideByCategory env st prev curr

/-! ## Context extraction (contextExtractor.ts) -/

/-- An extracted context value. -/
structure ExtractedContext where
  type : String
  value : String
  details : Option String := none
deriving Repr, DecidableEq

/-- The per-application title-parsing closures of contextExtractor.ts.
Each closure is a regex-driven parser of a window title; they are
abstracted here as parameters of the model (the dispatch over them, the
application-name matchers and the generic fallback are modelled
concretely below). Every theorem about the aggregation pipeline in this
file holds for all instantiations of these parsers. -/
structure Extractors where
  vscode : String → Option String
  cursor : String → Option String
  xcode : String → Option String
  jetbrains : String → Option String
  sublime : String → Option String
  vim : String → Option String
  terminal : String → Option String
  figma : String → Option String
  sketch : String → Option String
  adobe : String → Option String
  slack : String → Option String
  discord : String → Option String
  teams : String → Option String
  browserCtx : String → Option String → Option ExtractedContext

/-- The trivial instantiation (every parser declines); used to evaluate
the model at concrete inputs whose claims do not depend on the parsers. -/
def noExtractors : Extractors :=
  { vscode := fun _ => none, cursor := fun _ => none, xcode := fun _ => none,
    jetbrains := fun _ => none, sublime := fun _ => none, vim := fun _ => none,
    terminal := fun _ => none, figma := fun _ => none, sketch := fun _ => none,
    adobe := fun _ => none, slack := fun _ => none, discord := fun _ => none,
    teams := fun _ => none,
    browserCtx := fun _ _ => none }

/-- The application-name regexes of IDE_PATTERNS, in table order. -/
def ideMatchers : List (String → Bool) :=
  [regexTestCI ["Visual Studio Code", "Code", "VSCode"],
   regexTestCI ["Cursor"],
   regexTestCI ["Xcode"],
   regexTestCI ["IntelliJ", "WebStorm", "PyCharm", "PhpStorm", "Rider", "GoLand", "CLion", "RubyMine"],
   regexTestCI ["Sublime Text"],
   regexTestCI ["nvim", "vim"]]

/-- IDE_PATTERNS: ordered application matchers with their parsers. -/
def idePatterns (ex : Extractors) : List ((String → Bool) × (String → Option String)) :=
  ideMatchers.zip [ex.vscode, ex.cursor, ex.xcode, ex.jetbrains, ex.sublime, ex.vim]

/-- The application-name regex of TERMINAL_PATTERNS. -/
def terminalMatchers : List (String → Bool) :=
  [regexTestCI ["iTerm", "Terminal", "Ghostty", "Alacritty", "Hyper", "Warp", "Kitty"]]

/-- TERMINAL_PATTERNS. -/
def terminalPatterns (ex : Extractors) : List ((String → Bool) × (String → Option String)) :=
  terminalMatchers.zip [ex.terminal]

/-- The application-name regexes of DESIGN_APP_PATTERNS. -/
def designMatchers : List (String → Bool) :=
  [regexTestCI ["Figma"],
   regexTestCI ["Sketch"],
   regexTestCI ["Photoshop", "Illustrator", "InDesign", "XD", "Premiere", "After Effects"]]

/-- DESIGN_APP_PATTERNS. -/
def designPatterns (ex : Extractors) : List ((String → Bool) × (String → Option String)) :=
  designMatchers.zip [ex.figma, ex.sketch, ex.adobe]

/-- The application-name regexes of COMMUNICATION_PATTERNS. -/
def communicationMatchers : List (String → Bool) :=
  [regexTestCI ["Slack"], regexTestCI ["Discord"], regexTestCI ["Teams"]]

/-- COMMUNICATION_PATTERNS. -/
def communicationPatterns (ex : Extractors) : List ((String → Bool) × (String → Option String)) :=
  communicationMatchers.zip [ex.slack, ex.discord, ex.teams]

/-- One pattern-table sweep: apply the parser of each matching entry in
order and return its first truthy result. -/
def tryPatterns (pats : List ((String → Bool) × (String → Option String)))
    (appName windowTitle : String) : Option String :=
  match pats with
  | [] => none
  | (m, f) :: rest =>
    if m appName then
      match f windowTitle with
      | some v => if v != "" then some v else tryPatterns rest appName windowTitle
      | none => tryPatterns rest appName windowTitle
    else tryPatterns rest appName windowTitle

/-- The generic-title blocklist of the fallback branch. -/
def genericTitles : List String :=
  ["untitled", "new document", "new file", "document", "window", ""]

/-- extractContext: reject blank titles; an explicit document path wins;
then the IDE, terminal, design and communication tables in order; then
URL-based extraction for browsers; then the generic fallback, which
returns the title (capped at 80 characters) when it is not in the
blocklist and is under 100 characters. -/
def extractContext (ex : Extractors) (appName windowTitle : String)
    (url : Option String) (documentPath : Option String) : Option ExtractedContext :=
  if windowTitle = "" || jsLen (jsTrim windowTitle) = 0 then none
  else if (match documentPath with | some d => d != "" && jsTrim d != "" | none => false) then
    some { type := "file", value := documentPath.getD "" }
  else
    match tryPatterns (idePatterns ex) appName windowTitle with
    | some v => some { type := "file", value := v }
    | none =>
    match tryPatterns (terminalPatterns ex) appName windowTitle with
    | some v => some { type := "command", value := v }
    | none =>
    match tryPatterns (designPatterns ex) appName windowTitle with
    | some v => some { type := "document", value := v }
    | none =>
    match tryPatterns (communicationPatterns ex) appName windowTitle with
    | some v => some { type := "other", value := v }
    | none =>
    if regexTestCI ["Firefox", "Chrome", "Safari", "Edge", "Brave", "Arc"] appName then
      ex.browserCtx windowTitle url
    else
      let normalizedTitle := jsTrim (lowerStr windowTitle)
      if !(genericTitles.contains normalizedTitle) && jsLen windowTitle < 100 then
        some { type := "other", value := jsTake windowTitle 80 }
      else none

/-- deduplicateContexts: keep each value whose lowercased trimmed form
has not occurred yet and which is nonempty, in first-occurrence order. -/
def deduplicateContexts (contexts : List ExtractedContext) : List String :=
  (contexts.foldl
    (fun (acc : List String × List String) ctx =>
      let normalized := jsTrim (lowerStr ctx.value)
      if !(acc.1.contains normalized) && jsLen ctx.value > 0 then
        (acc.1 ++ [normalized], acc.2 ++ [ctx.value])
      else acc)
    ([], [])).2

/-! ## Session aggregation (sessions.ts) -/

/-- An output session. Absent optional fields of the TS object are the
none and empty defaults here; start and end are the millisecond instants
whose ISO strings the source stores. -/
structure ActivitySession where
  id : String
  startMs : Int
  endMs : Int
  duration : Int
  type : String
  category : Option String := none
  apps : List String := []
  contexts : List String := []
  contextSwitches : Int := 0
  precedingCategory : Option String := none
deriving Repr, DecidableEq

/-- The open accumulator of the aggregation sweep. -/
structure CurrentSession where
  events : List Event
  contexts : List ExtractedContext
  apps : List String
  contextSwitches : Int
  category : Option String
deriving Repr, DecidableEq

/-- Math.round(ms / 1000) on an exact millisecond count. -/
def roundMsToSec (ms : Int) : Int := (ms + 500).fdiv 1000

/-- Set.prototype.add on the insertion-ordered app list. -/
def setAdd (l : List String) (s : String) : List String :=
  if l.contains s then l else l ++ [s]

/-- Replace the last element of a list. -/
def updateLast (f : ActivitySession → ActivitySession) :
    List ActivitySession → List ActivitySession
  | [] => []
  | [a] => [f a]
  | a :: rest => a :: updateLast f rest

/-- finalizeSession: session start is the first member event timestamp,
session end is the last member event timestamp plus that event duration,
session duration is Math.round of their difference in seconds, the type
is active and the category is the validated accumulator category. -/
def finalizeSession (uuid : Nat → String) (n : Nat) (s : CurrentSession) : ActivitySession :=
  let firstEvent := s.events.headD defaultEvent
  let lastEvent := s.events.getLastD defaultEvent
  let start := firstEvent.timestampMs
  let endMs := lastEvent.timestampMs + evDuration lastEvent * 1000
  { id := uuid n, startMs := start, endMs := endMs,
    duration := roundMsToSec (endMs - start),
    type := "active", category := some (toActivityCategory s.category),
    apps := s.apps, contexts := (deduplicateContexts s.contexts).take 10,
    contextSwitches := s.contextSwitches }

/-- The one-event idle session created when the preceding output session
is not idle; it records the category of that preceding session. -/
def newIdleSession (uuid : Nat → String) (n : Nat) (e : Event)
    (precedingCat : Option String) : ActivitySession :=
  { id := uuid n, startMs := e.timestampMs,
    endMs := e.timestampMs + evDuration e * 1000,
    duration := evDuration e, type := "idle", precedingCategory := precedingCat }

/-- The collaborators of one aggregation run: the boundary service
environment, the context parsers and the session-id supply. -/
structure AggEnv where
  benv : BoundaryEnv
  ex : Extractors
  uuid : Nat → String

/-- The sweep state: emitted sessions, the open accumulator, the boundary
service state and the count of ids drawn so far. -/
structure AggState where
  sessions : List ActivitySession
  cur : Option CurrentSession
  bst : BoundaryState
  counter : Nat

/-- Open a fresh accumulator seeded with one event: resolve its category,
seed the app set and extract its context. -/
def newCurrentSession (env : AggEnv) (e : Event) : CurrentSession :=
  let base : CurrentSession :=
    { events := [e], contexts := [], apps := [e.appName], contextSwitches := 0,
      category := getCategoryForEvent env.benv.categoryLookup e }
  match extractContext env.ex e.appName e.windowTitle e.url e.documentPath with
  | some ctx => { base with contexts := [ctx] }
  | none => base

/-- Emit the finalized accumulator and close it. -/
def pushFinalized (env : AggEnv) (st : AggState) (c : CurrentSession) : AggState :=
  { st with sessions := st.sessions ++ [finalizeSession env.uuid st.counter c],
            counter := st.counter + 1, cur := none }

/-- First half of the idle branch: finalize any open accumulator with at
least one member event (the source then also nulls the accumulator,
which pushFinalized does). -/
def closeCur (env : AggEnv) (st : AggState) : AggState :=
  match st.cur with
  | some c => if c.events.length > 0 then pushFinalized env st c else st
  | none => st

/-- Second half of the idle branch: extend a trailing idle session
(moving its end to this event timestamp and adding this event duration)
or append a fresh one-event idle session that records the category of
the preceding session when there is one. -/
def emitIdle (env : AggEnv) (st1 : AggState) (e : Event) : AggState :=
  match st1.sessions.getLast? with
  | some last =>
    if last.type = "idle" then
      let extend := fun (s : ActivitySession) =>
        { s with endMs := e.timestampMs, duration := s.duration + evDuration e }
      { st1 with sessions := updateLast extend st1.sessions }
    else
      { st1 with
        sessions := st1.sessions ++ [newIdleSession env.uuid st1.counter e last.category],
        counter := st1.counter + 1 }
  | none =>
    { st1 with sessions := st1.sessions ++ [newIdleSession env.uuid st1.counter e none],
               counter := st1.counter + 1 }

/-- The active-event branch: open an accumulator when none is open, else
ask the boundary service and either merge this event into the open
accumulator (updating contexts, the app set, the switch counter and a
still-unresolved category) or finalize it and open a fresh one. -/
def aggActiveStep (env : AggEnv) (st : AggState) (e : Event) : AggState :=
  match st.cur with
  | none => { st with cur := some (newCurrentSession env e) }
  | some c =>
    let prevEvent := c.events.getLastD defaultEvent
    let dd := shouldMergeEvents env.benv st.bst prevEvent e
    let decision := dd.1
    let st1 := { st with bst := dd.2 }
    if decision.shouldMerge && decision.confidence ≥ mkRat 7 10 then
      let c1 := { c with events := c.events ++ [e], apps := setAdd c.apps e.appName }
      let c2 :=
        match extractContext env.ex e.appName e.windowTitle e.url e.documentPath with
        | some ctx => { c1 with contexts := c1.contexts ++ [ctx] }
        | none => c1
      let c3 :=
        if prevEvent.appName != e.appName then
          { c2 with contextSwitches := c2.contextSwitches + 1 }
        else if optTruthy e.url && optTruthy prevEvent.url then
          if extractDomain prevEvent.url != extractDomain e.url then
            { c2 with contextSwitches := c2.contextSwitches + 1 }
          else c2
        else c2
      let c4 :=
        if !(optTruthy c3.category) then
          { c3 with category := getCategoryForEvent env.benv.categoryLookup e }
        else c3
      { st1 with cur := some c4 }
    else
      let st2 := pushFinalized env st1 c
      { st2 with cur := some (newCurrentSession env e) }

/-- One iteration of the aggregation loop body. -/
def aggStep (env : AggEnv) (st : AggState) (e : Event) : AggState :=
  if e.isIdle then emitIdle env (closeCur env st) e
  else aggActiveStep env st e

/-- The aggregation loop. -/
def aggGo (env : AggEnv) : AggState → List Event → AggState
  | st, [] => st
  | st, e :: es => aggGo env (aggStep env st e) es

/-- The sweep starts with no emitted sessions, no open accumulator and
the given boundary-service state. -/
def initState (bst : BoundaryState) : AggState :=
  { sessions := [], cur := none, bst := bst, counter := 0 }

/-- Finalize any accumulator still open at the end of the stream. -/
def finishAgg (env : AggEnv) (st : AggState) : List ActivitySession :=
  match st.cur with
  | some c => if c.events.length > 0 then (pushFinalized env st c).sessions else st.sessions
  | none => st.sessions

/-- aggregateToSessions: sweep the ordered event batch and return the
emitted sessions. -/
def aggregateToSessions (env : AggEnv) (events : List Event) (bst : BoundaryState) :
    List ActivitySession :=
  finishAgg env (aggGo env (initState bst) events)

/-! ## Helper lemmas -/

theorem newCurrentSession_events (env : AggEnv) (e : Event) :
    (newCurrentSession env e).events = [e] := by
  unfold newCurrentSession
  cases extractContext env.ex e.appName e.windowTitle e.url e.documentPath <;> rfl

theorem aggStep_active_none (env : AggEnv) (st : AggState) (e : Event)
    (he : e.isIdle = false) (h : st.cur = none) :
    aggStep env st e = { st with cur := some (newCurrentSession env e) } := by
  simp [aggStep, aggActiveStep, he, h]

theorem aggStep_active_merge (env : AggEnv) (st : AggState) (c : CurrentSession) (e : Event)
    (he : e.isIdle = false) (h : st.cur = some c)
    (hc : ((shouldMergeEvents env.benv st.bst (c.events.getLastD defaultEvent) e).1.shouldMerge &&
        decide ((shouldMergeEvents env.benv st.bst (c.events.getLastD defaultEvent) e).1.confidence ≥
          mkRat 7 10)) = true) :
    ∃ c4 : CurrentSession, c4.events = c.events ++ [e] ∧
      aggStep env st e = { st with
        bst := (shouldMergeEvents env.benv st.bst (c.events.getLastD defaultEvent) e).2,
        cur := some c4 } := by
  simp only [aggStep, aggActiveStep, he, Bool.false_eq_true, if_false, h, hc, if_true]
  refine ⟨_, ?_, rfl⟩
  cases extractContext env.ex e.appName e.windowTitle e.url e.documentPath <;>
    split_ifs <;> rfl

theorem aggStep_active_split (env : AggEnv) (st : AggState) (c : CurrentSession) (e : Event)
    (he : e.isIdle = false) (h : st.cur = some c)
    (hc : ¬ ((shouldMergeEvents env.benv st.bst (c.events.getLastD defaultEvent) e).1.shouldMerge &&
        decide ((shouldMergeEvents env.benv st.bst (c.events.getLastD defaultEvent) e).1.confidence ≥
          mkRat 7 10)) = true) :
    aggStep env st e = { st with
      sessions := st.sessions ++ [finalizeSession env.uuid st.counter c],
      bst := (shouldMergeEvents env.benv st.bst (c.events.getLastD defaultEvent) e).2,
      counter := st.counter + 1,
      cur := some (newCurrentSession env e) } := by
  simp only [aggStep, aggActiveStep, he, Bool.false_eq_true, if_false, h]
  rw [if_neg hc]
  simp [pushFinalized]

/-! ## Shared concrete fixtures for witnesses and counterexamples -/

/-- An empty boundary-service state: empty decision cache, no recorded
suggestions. -/
def bst0 : BoundaryState := {}

/-- A boundary environment with no category snapshot and no AI model
available. -/
def benvNone : BoundaryEnv :=
  { categoryLookup := none, aiAvailable := false,
    askAI := fun _ _ =>
      { shouldMerge := false, confidence := mkRat 5 10, reason := "unavailable" } }

/-- A plain aggregation environment over benvNone. -/
def envPlain : AggEnv := { benv := benvNone, ex := noExtractors, uuid := fun _ => "id" }

/-- A ten-minute writing event starting at the epoch. Its app name falls
in no related-app group and is no browser. -/
def evC1a : Event :=
  { appName := "AlphaWriter", windowTitle := "draft", timestampMs := 0, duration := some 600 }

/-- A five-second event ten seconds later, in an unrelated app. -/
def evC1b : Event :=
  { appName := "BetaPlayer", windowTitle := "song", timestampMs := 10000, duration := some 5 }

/-! ## C5: the aggregator merges exactly at shouldMerge with confidence at least 0.7 -/

/-- C5: for a pre-sorted pair of non-idle events, the aggregator keeps
both events in one session exactly when the boundary decision recommends
the merge with confidence at least 0.7 (the fixed threshold); otherwise
it emits two sessions. In particular a merge recommendation at exactly
0.7 merges, and one at 0.69999 splits (see the witness). -/
theorem merge_exactly_at_threshold (env : AggEnv) (bst : BoundaryState) (p e : Event)
    (hp : p.isIdle = false) (he : e.isIdle = false) :
    (aggregateToSessions env [p, e] bst).length = 1 ↔
      ((shouldMergeEvents env.benv bst p e).1.shouldMerge = true ∧
        mkRat 7 10 ≤ (shouldMergeEvents env.benv bst p e).1.confidence) := by
  have hkey : aggregateToSessions env [p, e] bst =
      finishAgg env (aggStep env (aggStep env (initState bst) p) e) := rfl
  have hs1 : aggStep env (initState bst) p =
      { sessions := [], cur := some (newCurrentSession env p), bst := bst, counter := 0 } :=
    aggStep_active_none env (initState bst) p hp rfl
  rw [hkey, hs1]
  have hprev : (newCurrentSession env p).events.getLastD defaultEvent = p := by
    rw [newCurrentSession_events]; rfl
  by_cases hc : ((shouldMergeEvents env.benv bst p e).1.shouldMerge &&
      decide ((shouldMergeEvents env.benv bst p e).1.confidence ≥ mkRat 7 10)) = true
  · obtain ⟨c4, hc4, hstep⟩ :=
      aggStep_active_merge env
        { sessions := [], cur := some (newCurrentSession env p), bst := bst, counter := 0 }
        (newCurrentSession env p) e he rfl (by rw [hprev]; exact hc)
    rw [hprev] at hstep
    rw [hstep]
    have hlen : c4.events.length = 2 := by
      rw [hc4, newCurrentSession_events]; rfl
    simp only [Bool.and_eq_true, decide_eq_true_eq, ge_iff_le] at hc
    simp [finishAgg, pushFinalized, hlen, hc]
  · have hstep :=
      aggStep_active_split env
        { sessions := [], cur := some (newCurrentSession env p), bst := bst, counter := 0 }
        (newCurrentSession env p) e he rfl (by rw [hprev]; exact hc)
    rw [hprev] at hstep
    rw [hstep]
    simp only [Bool.and_eq_true, decide_eq_true_eq, ge_iff_le] at hc
    simp [finishAgg, pushFinalized, newCurrentSession_events, hc]

/-- An environment whose AI collaborator recommends merging with
confidence exactly 0.7. -/
def envAI70 : AggEnv :=
  { benv := { categoryLookup := none, aiAvailable := true,
              askAI := fun _ _ =>
                { shouldMerge := true, confidence := mkRat 7 10, reason := "AI classification" } },
    ex := noExtractors, uuid := fun _ => "id" }

/-- An environment whose AI collaborator recommends merging with
confidence 0.69999. -/
def envAI69999 : AggEnv :=
  { benv := { categoryLookup := none, aiAvailable := true,
              askAI := fun _ _ =>
                { shouldMerge := true, confidence := mkRat 69999 100000, reason := "AI classification" } },
    ex := noExtractors, uuid := fun _ => "id" }

/-- Witness for the threshold theorem: at the concrete pair evC1a, evC1b
a merge recommendation with confidence exactly 0.70 yields one session,
and one with confidence 0.69999 yields two. -/
theorem merge_exactly_at_threshold_witness :
    evC1a.isIdle = false ∧ evC1b.isIdle = false ∧
    ((aggregateToSessions envAI70 [evC1a, evC1b] bst0).length = 1 ↔
      ((shouldMergeEvents envAI70.benv bst0 evC1a evC1b).1.shouldMerge = true ∧
        mkRat 7 10 ≤ (shouldMergeEvents envAI70.benv bst0 evC1a evC1b).1.confidence)) ∧
    (aggregateToSessions envAI70 [evC1a, evC1b] bst0).length = 1 ∧
    (aggregateToSessions envAI69999 [evC1a, evC1b] bst0).length = 2 :=
  ⟨rfl, rfl, merge_exactly_at_threshold envAI70 bst0 evC1a evC1b rfl rfl,
    by decide, by decide⟩

/-! ## C6: conservative no-merge at confidence exactly 0.5 -/

/-- C6: when the gap and idle rules do not fire, the apps differ and are
unrelated, at least one side has no resolvable category, the decision
cache has no entry for the pair key and no AI collaborator is available,
shouldMergeEvents returns the conservative split: shouldMerge false with
confidence exactly 0.5. -/
theorem conservative_split_without_ai (env : BoundaryEnv) (st : BoundaryState)
    (prev curr : Event)
    (hgap : curr.timestampMs - prev.timestampMs ≤ 300 * 1000)
    (hidle : prev.isIdle = false ∨ evDuration prev ≤ 120)
    (happ : prev.appName ≠ curr.appName)
    (hrel : areAppsRelated prev.appName curr.appName = false)
    (hcat : getCategoryForEvent env.categoryLookup prev = none ∨
      getCategoryForEvent env.categoryLookup curr = none)
    (hcache : st.aiDecisionCache.lookup (buildCacheKey prev curr) = none)
    (hai : env.aiAvailable = false) :
    (shouldMergeEvents env st prev curr).1 =
      { shouldMerge := false, confidence := mkRat 5 10,
        reason := "Uncategorized - conservative split" } := by
  have h1 : ¬ (curr.timestampMs - prev.timestampMs > 300 * 1000) := by omega
  have h2 : ¬ ((prev.isIdle && decide (evDuration prev > 120)) = true) := by
    rcases hidle with h | h
    · simp [h]
    · simp [decide_eq_true_eq]
      intro _
      omega
  unfold shouldMergeEvents
  rw [if_neg h1, if_neg h2, if_neg happ, if_neg (by simp [hrel])]
  unfold decideByCategory
  have h3 : ¬ ((optTruthy (getCategoryForEvent env.categoryLookup prev) &&
      optTruthy (getCategoryForEvent env.categoryLookup curr)) = true) := by
    rcases hcat with h | h <;> simp [h, optTruthy]
  rw [if_neg h3]
  simp [hcache, hai]

/-- Witness for the conservative split at the concrete unrelated,
uncategorized pair evC1a, evC1b with no AI model available. -/
theorem conservative_split_without_ai_witness :
    evC1b.timestampMs - evC1a.timestampMs ≤ 300 * 1000 ∧
    evC1a.isIdle = false ∧
    evC1a.appName ≠ evC1b.appName ∧
    areAppsRelated evC1a.appName evC1b.appName = false ∧
    getCategoryForEvent benvNone.categoryLookup evC1a = none ∧
    bst0.aiDecisionCache.lookup (buildCacheKey evC1a evC1b) = none ∧
    benvNone.aiAvailable = false ∧
    (shouldMergeEvents benvNone bst0 evC1a evC1b).1 =
      { shouldMerge := false, confidence := mkRat 5 10,
        reason := "Uncategorized - conservative split" } :=
  ⟨by decide, rfl, by decide, by decide, rfl, rfl, rfl,
    conservative_split_without_ai benvNone bst0 evC1a evC1b (by decide) (Or.inl rfl)
      (by decide) (by decide) (Or.inl rfl) rfl rfl⟩

/-! ## C7: Cursor followed by Ghostty, both mapped to development -/

/-- The category snapshot mapping Cursor and Ghostty to development. -/
def lookC7 : CategoryLookup :=
  { apps := [("Cursor", "development"), ("Ghostty", "development")] }

/-- Boundary environment for the Cursor to Ghostty scenario. -/
def benvC7 : BoundaryEnv :=
  { categoryLookup := some lookC7, aiAvailable := false,
    askAI := fun _ _ =>
      { shouldMerge := false, confidence := mkRat 5 10, reason := "unavailable" } }

/-- A Cursor event at the epoch. -/
def evC7prev : Event :=
  { appName := "Cursor", windowTitle := "main.ts - proj - Cursor",
    timestampMs := 0, duration := some 5 }

/-- A Ghostty event two seconds later. -/
def evC7curr : Event :=
  { appName := "Ghostty", windowTitle := "~/proj", timestampMs := 2000, duration := some 5 }

/-- Counterexample to C7 as stated: on the Cursor-then-Ghostty pair two
seconds apart with both apps mapped to development, the decision is the
same-category merge at confidence 0.85 with reason "Same category
(development)" - not 0.9 with a reason citing related apps. Cursor sits
in the IDE group and Ghostty in the terminal group of
RELATED_APP_GROUPS, and those are distinct groups, so the related-apps
rule does not fire. -/
theorem cursor_ghostty_counterexample :
    (shouldMergeEvents benvC7 bst0 evC7prev evC7curr).1 =
      { shouldMerge := true, confidence := mkRat 85 100,
        reason := "Same category (development)" } ∧
    areAppsRelated "Cursor" "Ghostty" = false ∧
    (mkRat 85 100 : ℚ) ≠ mkRat 9 10 := by
  decide

/-- C7 as amended: the Cursor-then-Ghostty adjacency with both apps
mapped to development merges, with confidence 0.85 and reason "Same
category (development)", through the category-comparison rule. -/
theorem cursor_ghostty_same_category :
    (shouldMergeEvents benvC7 bst0 evC7prev evC7curr).1.shouldMerge = true ∧
    (shouldMergeEvents benvC7 bst0 evC7prev evC7curr).1.confidence = mkRat 85 100 ∧
    (shouldMergeEvents benvC7 bst0 evC7prev evC7curr).1.reason = "Same category (development)" := by
  decide

/-! ## C9: the generic window-title fallback -/

theorem tryPatterns_none (pats : List ((String → Bool) × (String → Option String)))
    (appName windowTitle : String)
    (h : ∀ pr ∈ pats, pr.1 appName = false) :
    tryPatterns pats appName windowTitle = none := by
  induction pats with
  | nil => rfl
  | cons pr rest ih =>
    obtain ⟨m, f⟩ := pr
    have hm : m appName = false := h (m, f) (List.mem_cons_self _ _)
    simp only [tryPatterns, hm, Bool.false_eq_true, if_false]
    exact ih (fun q hq => h q (List.mem_cons_of_mem _ hq))

/-- C9 as amended: with no document path, an app name matching no IDE,
terminal, design, communication or browser family, and a window title
that trims to something nonempty, is not in the generic-title blocklist
and is under 100 characters, extractContext returns kind other carrying
the first 80 characters of the title (so the title verbatim whenever it
has at most 80 characters). -/
theorem generic_title_fallback (ex : Extractors) (appName windowTitle : String)
    (url : Option String)
    (hIde : ∀ m ∈ ideMatchers, m appName = false)
    (hTerm : ∀ m ∈ terminalMatchers, m appName = false)
    (hDes : ∀ m ∈ designMatchers, m appName = false)
    (hComm : ∀ m ∈ communicationMatchers, m appName = false)
    (hBrow : regexTestCI ["Firefox", "Chrome", "Safari", "Edge", "Brave", "Arc"] appName = false)
    (htitle : jsLen (jsTrim windowTitle) ≠ 0)
    (hgen : genericTitles.contains (jsTrim (lowerStr windowTitle)) = false)
    (hlen : jsLen windowTitle < 100) :
    extractContext ex appName windowTitle url none =
      some { type := "other", value := jsTake windowTitle 80 } := by
  have hne : ¬ ((decide (windowTitle = "") || decide (jsLen (jsTrim windowTitle) = 0)) = true) := by
    simp only [Bool.or_eq_true, decide_eq_true_eq]
    rintro (h | h)
    · subst h; exact htitle rfl
    · exact htitle h
  have hideP : tryPatterns (idePatterns ex) appName windowTitle = none :=
    tryPatterns_none _ _ _ (fun pr hpr => hIde pr.1 (List.of_mem_zip hpr).1)
  have htermP : tryPatterns (terminalPatterns ex) appName windowTitle = none :=
    tryPatterns_none _ _ _ (fun pr hpr => hTerm pr.1 (List.of_mem_zip hpr).1)
  have hdesP : tryPatterns (designPatterns ex) appName windowTitle = none :=
    tryPatterns_none _ _ _ (fun pr hpr => hDes pr.1 (List.of_mem_zip hpr).1)
  have hcommP : tryPatterns (communicationPatterns ex) appName windowTitle = none :=
    tryPatterns_none _ _ _ (fun pr hpr => hComm pr.1 (List.of_mem_zip hpr).1)
  unfold extractContext
  rw [if_neg hne]
  simp only [hideP, htermP, hdesP, hcommP, hBrow, Bool.false_eq_true, if_false]
  have hgen2 : jsTrim (lowerStr windowTitle) ∉ genericTitles := by
    simpa using hgen
  simp [hgen2, hlen]

/-- A ninety-character window title. -/
def title90 : String := ⟨List.replicate 90 'a'⟩

/-- Counterexample to C9 as stated: a 90-character title is under the
100-character cutoff, yet the value returned is its first 80 characters,
not the title verbatim. -/
theorem generic_title_counterexample :
    extractContext noExtractors "MyNotesApp" title90 none none =
      some { type := "other", value := ⟨List.replicate 80 'a'⟩ } ∧
    jsLen title90 < 100 ∧
    (⟨List.replicate 80 'a'⟩ : String) ≠ title90 := by
  decide

/-- Witness for the generic fallback at a concrete unmatched app and an
ordinary short title, which is returned verbatim. -/
theorem generic_title_fallback_witness :
    (∀ m ∈ ideMatchers, m "MyNotesApp" = false) ∧
    (∀ m ∈ terminalMatchers, m "MyNotesApp" = false) ∧
    (∀ m ∈ designMatchers, m "MyNotesApp" = false) ∧
    (∀ m ∈ communicationMatchers, m "MyNotesApp" = false) ∧
    regexTestCI ["Firefox", "Chrome", "Safari", "Edge", "Brave", "Arc"] "MyNotesApp" = false ∧
    genericTitles.contains (jsTrim (lowerStr "hello world")) = false ∧
    jsLen "hello world" < 100 ∧
    extractContext noExtractors "MyNotesApp" "hello world" none none =
      some { type := "other", value := jsTake "hello world" 80 } ∧
    jsTake "hello world" 80 = "hello world" :=
  ⟨by decide, by decide, by decide, by decide, by decide, by decide, by decide,
    generic_title_fallback noExtractors "MyNotesApp" "hello world" none
      (by decide) (by decide) (by decide) (by decide) (by decide) (by decide)
      (by decide) (by decide),
    by decide⟩

/-! ## C2: determinism of one aggregation run up to the random ids -/

/-- Erase the randomly drawn id of a session. -/
def stripId (s : ActivitySession) : ActivitySession := { s with id := "" }

/-- Two sweep states that agree everywhere except possibly in the ids of
already-emitted sessions. -/
def SameUpToId (st1 st2 : AggState) : Prop :=
  st1.sessions.map stripId = st2.sessions.map stripId ∧
  st1.cur = st2.cur ∧ st1.bst = st2.bst ∧ st1.counter = st2.counter

theorem stripId_finalize (u : Nat → String) (n : Nat) (c : CurrentSession) :
    stripId (finalizeSession u n c) = finalizeSession (fun _ => "") 0 c := rfl

theorem stripId_newIdle (u : Nat → String) (n : Nat) (e : Event) (pc : Option String) :
    stripId (newIdleSession u n e pc) = newIdleSession (fun _ => "") 0 e pc := rfl

theorem updateLast_cons_cons (f : ActivitySession → ActivitySession)
    (a b : ActivitySession) (m : List ActivitySession) :
    updateLast f (a :: b :: m) = a :: updateLast f (b :: m) := rfl

theorem updateLast_map (f : ActivitySession → ActivitySession)
    (hfg : ∀ s, stripId (f s) = f (stripId s)) :
    ∀ l : List ActivitySession, (updateLast f l).map stripId = updateLast f (l.map stripId) := by
  intro l
  induction l with
  | nil => rfl
  | cons a l ih =>
    cases l with
    | nil => simp [updateLast, hfg]
    | cons b m =>
      calc (updateLast f (a :: b :: m)).map stripId
          = stripId a :: (updateLast f (b :: m)).map stripId := rfl
        _ = stripId a :: updateLast f ((b :: m).map stripId) := by rw [ih]
        _ = updateLast f ((a :: b :: m).map stripId) := by
              simp only [List.map_cons, updateLast_cons_cons]

theorem map_getLast? (g : ActivitySession → ActivitySession) :
    ∀ l : List ActivitySession, (l.map g).getLast? = l.getLast?.map g := by
  intro l
  induction l with
  | nil => rfl
  | cons a l ih =>
    cases l with
    | nil => rfl
    | cons b m => simpa using ih

theorem pushFinalized_sameUpToId (benv : BoundaryEnv) (ex : Extractors) (u1 u2 : Nat → String)
    (st1 st2 : AggState) (c : CurrentSession) (h : SameUpToId st1 st2) :
    SameUpToId (pushFinalized ⟨benv, ex, u1⟩ st1 c) (pushFinalized ⟨benv, ex, u2⟩ st2 c) := by
  obtain ⟨hs, hcur, hbst, hcnt⟩ := h
  refine ⟨?_, rfl, by simp [pushFinalized, hbst], by simp [pushFinalized, hcnt]⟩
  simp [pushFinalized, List.map_append, hs, stripId_finalize]

theorem closeCur_sameUpToId (benv : BoundaryEnv) (ex : Extractors) (u1 u2 : Nat → String)
    (st1 st2 : AggState) (h : SameUpToId st1 st2) :
    SameUpToId (closeCur ⟨benv, ex, u1⟩ st1) (closeCur ⟨benv, ex, u2⟩ st2) := by
  have hcur := h.2.1
  unfold closeCur
  rw [← hcur]
  cases st1.cur with
  | none => exact h
  | some c =>
    dsimp only
    by_cases hlen : c.events.length > 0
    · rw [if_pos hlen, if_pos hlen]
      exact pushFinalized_sameUpToId benv ex u1 u2 st1 st2 c h
    · rw [if_neg hlen, if_neg hlen]
      exact h

theorem emitIdle_sameUpToId (benv : BoundaryEnv) (ex : Extractors) (u1 u2 : Nat → String)
    (stA stB : AggState) (e : Event) (h : SameUpToId stA stB) :
    SameUpToId (emitIdle ⟨benv, ex, u1⟩ stA e) (emitIdle ⟨benv, ex, u2⟩ stB e) := by
  obtain ⟨hs, hcur, hbst, hcnt⟩ := h
  have hlast : stA.sessions.getLast?.map stripId = stB.sessions.getLast?.map stripId := by
    rw [← map_getLast?, ← map_getLast?, hs]
  simp only [emitIdle]
  cases h1 : stA.sessions.getLast? with
  | none =>
    cases h2 : stB.sessions.getLast? with
    | none =>
      dsimp only
      refine ⟨?_, hcur, hbst, by simp [hcnt]⟩
      simp [List.map_append, hs, stripId_newIdle]
    | some b => rw [h1, h2] at hlast; exact absurd hlast (by simp)
  | some a =>
    cases h2 : stB.sessions.getLast? with
    | none => rw [h1, h2] at hlast; exact absurd hlast (by simp)
    | some b =>
      rw [h1, h2] at hlast
      have hab : stripId a = stripId b := by simpa using hlast
      have htype : a.type = b.type := congrArg (fun s => s.type) hab
      have hcat : a.category = b.category := congrArg (fun s => s.category) hab
      dsimp only
      by_cases hty : a.type = "idle"
      · rw [if_pos hty, if_pos (htype ▸ hty)]
        refine ⟨?_, hcur, hbst, hcnt⟩
        dsimp only
        rw [updateLast_map
              (fun s => { s with endMs := e.timestampMs, duration := s.duration + evDuration e })
              (fun s => rfl),
            updateLast_map
              (fun s => { s with endMs := e.timestampMs, duration := s.duration + evDuration e })
              (fun s => rfl),
            hs]
      · rw [if_neg hty, if_neg (htype ▸ hty)]
        refine ⟨?_, hcur, hbst, by simp [hcnt]⟩
        rw [List.map_append, List.map_append, hs, hcnt]
        simp [stripId_newIdle, hcat]

theorem aggActiveStep_sameUpToId (benv : BoundaryEnv) (ex : Extractors) (u1 u2 : Nat → String)
    (st1 st2 : AggState) (e : Event) (h : SameUpToId st1 st2) :
    SameUpToId (aggActiveStep ⟨benv, ex, u1⟩ st1 e) (aggActiveStep ⟨benv, ex, u2⟩ st2 e) := by
  obtain ⟨hs, hcur, hbst, hcnt⟩ := h
  simp only [aggActiveStep]
  rw [← hcur, ← hbst]
  cases st1.cur with
  | none =>
    dsimp only
    exact ⟨hs, rfl, rfl, hcnt⟩
  | some c =>
    dsimp only
    by_cases hcond : (((shouldMergeEvents benv st1.bst (c.events.getLastD defaultEvent) e).1.shouldMerge &&
        decide ((shouldMergeEvents benv st1.bst (c.events.getLastD defaultEvent) e).1.confidence ≥
          mkRat 7 10)) = true)
    · rw [if_pos hcond, if_pos hcond]
      exact ⟨hs, rfl, rfl, hcnt⟩
    · rw [if_neg hcond, if_neg hcond]
      refine ⟨?_, rfl, by simp [pushFinalized], by simp [pushFinalized, hcnt]⟩
      simp [pushFinalized, List.map_append, hs, stripId_finalize]

theorem aggStep_sameUpToId (benv : BoundaryEnv) (ex : Extractors) (u1 u2 : Nat → String)
    (st1 st2 : AggState) (e : Event) (h : SameUpToId st1 st2) :
    SameUpToId (aggStep ⟨benv, ex, u1⟩ st1 e) (aggStep ⟨benv, ex, u2⟩ st2 e) := by
  unfold aggStep
  by_cases hidle : e.isIdle = true
  · rw [if_pos hidle, if_pos hidle]
    exact emitIdle_sameUpToId benv ex u1 u2 _ _ e
      (closeCur_sameUpToId benv ex u1 u2 st1 st2 h)
  · rw [if_neg hidle, if_neg hidle]
    exact aggActiveStep_sameUpToId benv ex u1 u2 st1 st2 e h

theorem aggGo_sameUpToId (benv : BoundaryEnv) (ex : Extractors) (u1 u2 : Nat → String) :
    ∀ (es : List Event) (st1 st2 : AggState), SameUpToId st1 st2 →
      SameUpToId (aggGo ⟨benv, ex, u1⟩ st1 es) (aggGo ⟨benv, ex, u2⟩ st2 es) := by
  intro es
  induction es with
  | nil => intro st1 st2 h; exact h
  | cons e es ih =>
    intro st1 st2 h
    exact ih _ _ (aggStep_sameUpToId benv ex u1 u2 st1 st2 e h)

theorem finishAgg_sameUpToId (benv : BoundaryEnv) (ex : Extractors) (u1 u2 : Nat → String)
    (st1 st2 : AggState) (h : SameUpToId st1 st2) :
    (finishAgg ⟨benv, ex, u1⟩ st1).map stripId = (finishAgg ⟨benv, ex, u2⟩ st2).map stripId := by
  obtain ⟨hs, hcur, hbst, hcnt⟩ := h
  unfold finishAgg
  rw [← hcur]
  cases st1.cur with
  | none => exact hs
  | some c =>
    dsimp only
    by_cases hlen : c.events.length > 0
    · rw [if_pos hlen, if_pos hlen]
      simp [pushFinalized, List.map_append, hs, stripId_finalize]
    · rw [if_neg hlen, if_neg hlen]
      exact hs

/-- C2 as amended: two aggregation runs over the same event batch, the
same category-lookup snapshot, the same AI collaborator and the same
decision-cache state produce session lists that agree in every field
except the id, which crypto.randomUUID draws afresh on each run (the id
supplies u1 and u2 below are the only difference between the runs). -/
theorem aggregate_deterministic_up_to_ids (benv : BoundaryEnv) (ex : Extractors)
    (u1 u2 : Nat → String) (es : List Event) (bst : BoundaryState) :
    (aggregateToSessions ⟨benv, ex, u1⟩ es bst).map stripId =
      (aggregateToSessions ⟨benv, ex, u2⟩ es bst).map stripId :=
  finishAgg_sameUpToId benv ex u1 u2 _ _
    (aggGo_sameUpToId benv ex u1 u2 es _ _ ⟨rfl, rfl, rfl, rfl⟩)

/-- Counterexample to C2 as stated: with the batch, snapshot and cache
fixed, two runs whose randomUUID draws differ produce session lists that
are not byte-identical - and erasing the id field makes them equal, so
the id is the only differing field. -/
theorem aggregate_not_byte_identical :
    aggregateToSessions { benv := benvNone, ex := noExtractors, uuid := fun _ => "3f2c0aab" }
        [evC1a] bst0 ≠
      aggregateToSessions { benv := benvNone, ex := noExtractors, uuid := fun _ => "8b51d277" }
        [evC1a] bst0 ∧
    (aggregateToSessions { benv := benvNone, ex := noExtractors, uuid := fun _ => "3f2c0aab" }
        [evC1a] bst0).map stripId =
      (aggregateToSessions { benv := benvNone, ex := noExtractors, uuid := fun _ => "8b51d277" }
        [evC1a] bst0).map stripId := by
  decide

/-! ## A well-formedness invariant of emitted sessions (serves C3 and C10) -/

/-- Every session the sweep emits satisfies this: an active session has
its duration equal to the rounded second difference of its end and start
and carries a validated category; an idle session carries no category of
its own. -/
def SessionWF (s : ActivitySession) : Prop :=
  (s.type = "active" →
    s.duration = roundMsToSec (s.endMs - s.startMs) ∧
    ∃ c ∈ validCategories, s.category = some c) ∧
  (s.type = "idle" → s.category = none)

theorem toActivityCategory_mem (c : Option String) :
    toActivityCategory c ∈ validCategories := by
  cases c with
  | none => simp [toActivityCategory, validCategories]
  | some s =>
    unfold toActivityCategory
    dsimp only
    split_ifs with h
    · simp only [Bool.and_eq_true] at h
      simpa using h.2
    · simp [validCategories]

theorem finalize_WF (u : Nat → String) (n : Nat) (c : CurrentSession) :
    SessionWF (finalizeSession u n c) := by
  refine ⟨fun _ => ⟨rfl, toActivityCategory c.category, toActivityCategory_mem c.category, rfl⟩,
    fun h => ?_⟩
  simp [finalizeSession] at h

theorem newIdle_WF (u : Nat → String) (n : Nat) (e : Event) (pc : Option String) :
    SessionWF (newIdleSession u n e pc) := by
  refine ⟨fun h => ?_, fun _ => rfl⟩
  simp [newIdleSession] at h

theorem extend_WF (e : Event) (s : ActivitySession) (hty : s.type = "idle")
    (h2 : s.type = "idle" → s.category = none) :
    SessionWF { s with endMs := e.timestampMs, duration := s.duration + evDuration e } := by
  constructor
  · intro hac
    exfalso
    have hsa : s.type = "active" := hac
    rw [hty] at hsa
    exact absurd hsa (by decide)
  · intro _
    exact h2 hty

theorem mem_updateLast (f : ActivitySession → ActivitySession) :
    ∀ (l : List ActivitySession) (s : ActivitySession), s ∈ updateLast f l →
      s ∈ l ∨ ∃ s0, l.getLast? = some s0 ∧ s = f s0 := by
  intro l
  induction l with
  | nil => intro s hs; simp [updateLast] at hs
  | cons a l ih =>
    cases l with
    | nil =>
      intro s hs
      simp only [updateLast, List.mem_singleton] at hs
      exact Or.inr ⟨a, rfl, hs⟩
    | cons b m =>
      intro s hs
      rw [updateLast_cons_cons] at hs
      rcases List.mem_cons.mp hs with h | h
      · exact Or.inl (h ▸ List.mem_cons_self a (b :: m))
      · rcases ih s h with h2 | ⟨s0, h3, h4⟩
        · exact Or.inl (List.mem_cons_of_mem a h2)
        · exact Or.inr ⟨s0, by rw [List.getLast?_cons_cons]; exact h3, h4⟩

theorem closeCur_WF (env : AggEnv) (st : AggState)
    (h : ∀ s ∈ st.sessions, SessionWF s) :
    ∀ s ∈ (closeCur env st).sessions, SessionWF s := by
  unfold closeCur
  cases st.cur with
  | none => exact h
  | some c =>
    dsimp only
    by_cases hlen : c.events.length > 0
    · rw [if_pos hlen]
      intro s hs
      rcases List.mem_append.mp hs with h2 | h2
      · exact h s h2
      · rw [List.mem_singleton.mp h2]
        exact finalize_WF env.uuid st.counter c
    · rw [if_neg hlen]; exact h

theorem emitIdle_WF (env : AggEnv) (st1 : AggState) (e : Event)
    (h : ∀ s ∈ st1.sessions, SessionWF s) :
    ∀ s ∈ (emitIdle env st1 e).sessions, SessionWF s := by
  unfold emitIdle
  cases hl : st1.sessions.getLast? with
  | none =>
    dsimp only
    intro s hs
    rcases List.mem_append.mp hs with h2 | h2
    · exact h s h2
    · rw [List.mem_singleton.mp h2]; exact newIdle_WF env.uuid st1.counter e none
  | some last =>
    dsimp only
    by_cases hty : last.type = "idle"
    · rw [if_pos hty]
      intro s hs
      rcases mem_updateLast _ st1.sessions s hs with h2 | ⟨s0, h3, h4⟩
      · exact h s h2
      · rw [hl] at h3
        have heq : last = s0 := Option.some.inj h3
        subst heq
        have hmem : last ∈ st1.sessions := by
          obtain ⟨ys, hys⟩ := List.getLast?_eq_some_iff.mp hl
          rw [hys]
          simp
        subst h4
        exact extend_WF e last hty (h last hmem).2
    · rw [if_neg hty]
      intro s hs
      rcases List.mem_append.mp hs with h2 | h2
      · exact h s h2
      · rw [List.mem_singleton.mp h2]
        exact newIdle_WF env.uuid st1.counter e last.category

theorem aggStep_WF (env : AggEnv) (st : AggState) (e : Event)
    (h : ∀ s ∈ st.sessions, SessionWF s) :
    ∀ s ∈ (aggStep env st e).sessions, SessionWF s := by
  unfold aggStep
  by_cases hidle : e.isIdle = true
  · rw [if_pos hidle]
    exact emitIdle_WF env _ e (closeCur_WF env st h)
  · rw [if_neg hidle]
    unfold aggActiveStep
    cases st.cur with
    | none => exact h
    | some c =>
      dsimp only
      by_cases hcond : (((shouldMergeEvents env.benv st.bst (c.events.getLastD defaultEvent) e).1.shouldMerge &&
          decide ((shouldMergeEvents env.benv st.bst (c.events.getLastD defaultEvent) e).1.confidence ≥
            mkRat 7 10)) = true)
      · rw [if_pos hcond]; exact h
      · rw [if_neg hcond]
        intro s hs
        rcases List.mem_append.mp hs with h2 | h2
        · exact h s h2
        · rw [List.mem_singleton.mp h2]
          exact finalize_WF env.uuid st.counter c

theorem aggregate_WF (env : AggEnv) (es : List Event) (bst : BoundaryState) :
    ∀ s ∈ aggregateToSessions env es bst, SessionWF s := by
  unfold aggregateToSessions
  have main : ∀ (es2 : List Event) (st : AggState), (∀ s ∈ st.sessions, SessionWF s) →
      ∀ s ∈ (aggGo env st es2).sessions, SessionWF s := by
    intro es2
    induction es2 with
    | nil => intro st h; exact h
    | cons e es2 ih => intro st h; exact ih _ (aggStep_WF env st e h)
  have hgo := main es (initState bst) (by simp [initState])
  unfold finishAgg
  cases hcur : (aggGo env (initState bst) es).cur with
  | none => exact hgo
  | some c =>
    dsimp only
    by_cases hlen : c.events.length > 0
    · rw [if_pos hlen]
      intro s hs
      rcases List.mem_append.mp hs with h2 | h2
      · exact hgo s h2
      · rw [List.mem_singleton.mp h2]
        exact finalize_WF env.uuid (aggGo env (initState bst) es).counter c
    · rw [if_neg hlen]; exact hgo

/-! ## C3: session duration versus end minus start -/

/-- C3 as amended: every active session in the output has its duration
equal to Math.round of (end - start) in seconds, where finalizeSession
computed the end as the last member event timestamp plus that event
duration. Idle sessions instead accumulate the sum of their member
durations, which the counterexample below separates from end - start. -/
theorem active_duration_is_end_minus_start (env : AggEnv) (es : List Event)
    (bst : BoundaryState) :
    ∀ s ∈ aggregateToSessions env es bst, s.type = "active" →
      s.duration = roundMsToSec (s.endMs - s.startMs) :=
  fun s hs hty => ((aggregate_WF env es bst s hs).1 hty).1

/-- The single active session produced by sweeping evC1a alone. -/
def sessA : ActivitySession :=
  { id := "id", startMs := 0, endMs := 600000, duration := 600, type := "active",
    category := some "other", apps := ["AlphaWriter"], contexts := ["draft"],
    contextSwitches := 0 }

/-- Witness: the concrete active session of the one-event batch evC1a
satisfies duration = end - start in seconds. -/
theorem active_duration_witness :
    sessA ∈ aggregateToSessions envPlain [evC1a] bst0 ∧ sessA.type = "active" ∧
      sessA.duration = roundMsToSec (sessA.endMs - sessA.startMs) :=
  ⟨by decide, rfl,
    active_duration_is_end_minus_start envPlain [evC1a] bst0 sessA (by decide) rfl⟩

/-- A first idle event at the epoch. -/
def evIdle1 : Event :=
  { appName := "AlphaWriter", isIdle := true, timestampMs := 0, duration := some 5 }

/-- A second idle event 100 seconds later. -/
def evIdle2 : Event :=
  { appName := "AlphaWriter", isIdle := true, timestampMs := 100000, duration := some 5 }

/-- Counterexample to C3 as stated over all sessions: coalescing the two
idle events above yields one idle session with duration 10, the sum of
the member durations, while its end minus start is 100 seconds. -/
theorem idle_duration_counterexample :
    (aggregateToSessions envPlain [evIdle1, evIdle2] bst0).map
        (fun s => (s.type, s.startMs, s.endMs, s.duration)) = [("idle", 0, 100000, 10)] ∧
    (10 : ℤ) ≠ roundMsToSec (100000 - 0) := by
  decide

/-! ## C10: active sessions carry a category from the closed set -/

/-- C10: every active session carries some category drawn from the six
valid categories - toActivityCategory sends null and unrecognized
resolutions to other - and idle sessions carry no category field of
their own (their only category-valued field is precedingCategory). -/
theorem active_category_closed (env : AggEnv) (es : List Event) (bst : BoundaryState) :
    (∀ s ∈ aggregateToSessions env es bst,
      (s.type = "active" → ∃ c ∈ validCategories, s.category = some c) ∧
      (s.type = "idle" → s.category = none)) ∧
    toActivityCategory none = "other" ∧
    (∀ c : String, c ∉ validCategories → toActivityCategory (some c) = "other") := by
  refine ⟨fun s hs =>
    ⟨fun hty => ((aggregate_WF env es bst s hs).1 hty).2,
     (aggregate_WF env es bst s hs).2⟩, rfl, ?_⟩
  intro c hc
  unfold toActivityCategory
  dsimp only
  split_ifs with h
  · exfalso
    simp only [Bool.and_eq_true] at h
    exact hc (by simpa using h.2)
  · rfl

/-- The idle session produced by sweeping evIdle1 alone. -/
def sessI : ActivitySession :=
  { id := "id", startMs := 0, endMs := 5000, duration := 5, type := "idle" }

/-- Witness: the concrete active session sessA carries the category
other from the valid set, and the concrete idle session sessI carries no
category. -/
theorem active_category_closed_witness :
    sessA ∈ aggregateToSessions envPlain [evC1a] bst0 ∧
    (sessA.type = "active" → ∃ c ∈ validCategories, sessA.category = some c) ∧
    sessI ∈ aggregateToSessions envPlain [evIdle1] bst0 ∧
    (sessI.type = "idle" → sessI.category = none) :=
  ⟨by decide,
    fun hty => ((active_category_closed envPlain [evC1a] bst0).1 sessA (by decide)).1 hty,
    by decide,
    ((active_category_closed envPlain [evIdle1] bst0).1 sessI (by decide)).2⟩

/-! ## C1: ordering of the emitted sessions -/

/-- The session starts already emitted, followed by the start of the
open accumulator when one is open. -/
def startChain (st : AggState) : List Int :=
  st.sessions.map (fun s => s.startMs) ++
    (match st.cur with
     | some c =>
       match c.events with
       | [] => ([] : List Int)
       | e :: _ => [e.timestampMs]
     | none => [])

theorem updateLast_map_startMs (f : ActivitySession → ActivitySession)
    (hf : ∀ s, (f s).startMs = s.startMs) :
    ∀ l : List ActivitySession,
      (updateLast f l).map (fun s => s.startMs) = l.map (fun s => s.startMs) := by
  intro l
  induction l with
  | nil => rfl
  | cons a l ih =>
    cases l with
    | nil => simp [updateLast, hf]
    | cons b m => simp only [updateLast_cons_cons, List.map_cons, ih]

theorem closeCur_props (env : AggEnv) (st : AggState)
    (hinv : ∀ c, st.cur = some c → c.events ≠ []) :
    (closeCur env st).cur = none ∧
    (closeCur env st).sessions.map (fun s => s.startMs) = startChain st := by
  unfold closeCur
  cases hcur : st.cur with
  | none => exact ⟨hcur, by simp [startChain, hcur]⟩
  | some c =>
    obtain ⟨ec, rest, hce⟩ := List.exists_cons_of_ne_nil (hinv c hcur)
    dsimp only
    rw [if_pos (by rw [hce]; simp)]
    refine ⟨rfl, ?_⟩
    simp [pushFinalized, startChain, hcur, hce, finalizeSession, List.map_append]

theorem emitIdle_chain (env : AggEnv) (st1 : AggState) (e : Event) (hcur : st1.cur = none) :
    ((emitIdle env st1 e).sessions.map (fun s => s.startMs) =
        st1.sessions.map (fun s => s.startMs) ∨
      (emitIdle env st1 e).sessions.map (fun s => s.startMs) =
        st1.sessions.map (fun s => s.startMs) ++ [e.timestampMs]) ∧
    (emitIdle env st1 e).cur = none := by
  unfold emitIdle
  cases hl : st1.sessions.getLast? with
  | none =>
    dsimp only
    exact ⟨Or.inr (by simp [newIdleSession]), hcur⟩
  | some last =>
    dsimp only
    by_cases hty : last.type = "idle"
    · rw [if_pos hty]
      refine ⟨Or.inl ?_, hcur⟩
      exact updateLast_map_startMs
        (fun s => { s with endMs := e.timestampMs, duration := s.duration + evDuration e })
        (fun s => rfl) st1.sessions
    · rw [if_neg hty]
      exact ⟨Or.inr (by simp [newIdleSession]), hcur⟩

theorem startChain_aggStep (env : AggEnv) (st : AggState) (e : Event)
    (hinv : ∀ c, st.cur = some c → c.events ≠ []) :
    (startChain (aggStep env st e) = startChain st ∨
      startChain (aggStep env st e) = startChain st ++ [e.timestampMs]) ∧
    (∀ c, (aggStep env st e).cur = some c → c.events ≠ []) := by
  by_cases hidle : e.isIdle = true
  · have hstep : aggStep env st e = emitIdle env (closeCur env st) e := by
      unfold aggStep; rw [if_pos hidle]
    obtain ⟨hc1, hc2⟩ := closeCur_props env st hinv
    obtain ⟨hor, hcur2⟩ := emitIdle_chain env (closeCur env st) e hc1
    rw [hstep]
    have hchain : startChain (emitIdle env (closeCur env st) e) =
        (emitIdle env (closeCur env st) e).sessions.map (fun s => s.startMs) := by
      simp [startChain, hcur2]
    constructor
    · rcases hor with h | h
      · exact Or.inl (by rw [hchain, h, hc2])
      · exact Or.inr (by rw [hchain, h, hc2])
    · intro c hc
      rw [hcur2] at hc
      cases hc
  · have hidle2 : e.isIdle = false := by
      revert hidle
      cases e.isIdle <;> simp
    cases hcur : st.cur with
    | none =>
      rw [aggStep_active_none env st e hidle2 hcur]
      constructor
      · exact Or.inr (by simp [startChain, hcur, newCurrentSession_events])
      · intro c hc
        have hcc : c = newCurrentSession env e := (Option.some.inj hc).symm
        rw [hcc, newCurrentSession_events]
        simp
    | some c =>
      obtain ⟨ec, rest, hce⟩ := List.exists_cons_of_ne_nil (hinv c hcur)
      by_cases hcond : (((shouldMergeEvents env.benv st.bst (c.events.getLastD defaultEvent) e).1.shouldMerge &&
          decide ((shouldMergeEvents env.benv st.bst (c.events.getLastD defaultEvent) e).1.confidence ≥
            mkRat 7 10)) = true)
      · obtain ⟨c4, hc4, hstep⟩ := aggStep_active_merge env st c e hidle2 hcur hcond
        rw [hstep]
        constructor
        · exact Or.inl (by simp [startChain, hcur, hc4, hce])
        · intro c5 hc5
          have hcc : c5 = c4 := (Option.some.inj hc5).symm
          rw [hcc, hc4, hce]
          simp
      · rw [aggStep_active_split env st c e hidle2 hcur hcond]
        constructor
        · exact Or.inr (by
            simp [startChain, hcur, hce, finalizeSession, newCurrentSession_events,
              List.map_append])
        · intro c5 hc5
          have hcc : c5 = newCurrentSession env e := (Option.some.inj hc5).symm
          rw [hcc, newCurrentSession_events]
          simp

theorem aggregate_pairwise_starts (env : AggEnv) : ∀ (es : List Event) (st : AggState),
    List.Pairwise (fun a b => a.timestampMs ≤ b.timestampMs) es →
    (∀ c, st.cur = some c → c.events ≠ []) →
    List.Pairwise (fun a b : Int => a ≤ b) (startChain st) →
    (∀ x ∈ startChain st, ∀ e2 ∈ es, x ≤ e2.timestampMs) →
    List.Pairwise (fun a b : Int => a ≤ b)
      ((finishAgg env (aggGo env st es)).map (fun s => s.startMs)) := by
  intro es
  induction es with
  | nil =>
    intro st _ hinv hchain _
    unfold aggGo finishAgg
    cases hcur : st.cur with
    | none =>
      have : st.sessions.map (fun s => s.startMs) = startChain st := by
        simp [startChain, hcur]
      rw [this]
      exact hchain
    | some c =>
      obtain ⟨ec, rest, hce⟩ := List.exists_cons_of_ne_nil (hinv c hcur)
      dsimp only
      rw [if_pos (by rw [hce]; simp)]
      have : (pushFinalized env st c).sessions.map (fun s => s.startMs) = startChain st := by
        simp [pushFinalized, startChain, hcur, hce, finalizeSession, List.map_append]
      rw [this]
      exact hchain
  | cons e es ih =>
    intro st hsorted hinv hchain hbnd
    obtain ⟨hfirst, htail⟩ := List.pairwise_cons.mp hsorted
    obtain ⟨hor, hinv2⟩ := startChain_aggStep env st e hinv
    have hchain2 : List.Pairwise (fun a b : Int => a ≤ b) (startChain (aggStep env st e)) := by
      rcases hor with h | h
      · rw [h]; exact hchain
      · rw [h]
        refine List.pairwise_append.mpr ⟨hchain, by simp, ?_⟩
        intro a ha b hb
        rw [List.mem_singleton.mp hb]
        exact hbnd a ha e (List.mem_cons_self e es)
    have hbnd2 : ∀ x ∈ startChain (aggStep env st e), ∀ e2 ∈ es, x ≤ e2.timestampMs := by
      intro x hx e2 he2
      rcases hor with h | h
      · rw [h] at hx
        exact hbnd x hx e2 (List.mem_cons_of_mem e he2)
      · rw [h] at hx
        rcases List.mem_append.mp hx with h2 | h2
        · exact hbnd x h2 e2 (List.mem_cons_of_mem e he2)
        · rw [List.mem_singleton.mp h2]
          exact hfirst e2 he2
    exact ih (aggStep env st e) htail hinv2 hchain2 hbnd2

/-- C1 as amended: for a pre-sorted input batch, the output sessions are
time-ordered by their start instants. They need not be non-overlapping:
a session end is the last member event timestamp plus that event
duration, which can run past the next session start, as the
counterexample shows. -/
theorem sessions_sorted_by_start (env : AggEnv) (es : List Event) (bst : BoundaryState)
    (hsorted : List.Pairwise (fun a b => a.timestampMs ≤ b.timestampMs) es) :
    List.Pairwise (fun s t => s.startMs ≤ t.startMs) (aggregateToSessions env es bst) := by
  have h := aggregate_pairwise_starts env es (initState bst) hsorted
    (by intro c hc; cases hc)
    (by simp [startChain, initState])
    (by intro x hx; simp [startChain, initState] at hx)
  exact List.pairwise_map.mp h

/-- Counterexample to C1 as stated: the sorted batch evC1a, evC1b splits
into two sessions whose time ranges overlap - the first ends at 600000
ms, long after the second starts at 10000 ms. -/
theorem sessions_overlap_counterexample :
    evC1a.timestampMs ≤ evC1b.timestampMs ∧
    (aggregateToSessions envPlain [evC1a, evC1b] bst0).map (fun s => (s.startMs, s.endMs)) =
      [(0, 600000), (10000, 15000)] ∧
    ¬ ((600000 : ℤ) ≤ 10000) := by
  decide

/-- Witness: the sorted two-event batch yields sessions sorted by
start. -/
theorem sessions_sorted_by_start_witness :
    List.Pairwise (fun a b : Event => a.timestampMs ≤ b.timestampMs) [evC1a, evC1b] ∧
    List.Pairwise (fun s t => s.startMs ≤ t.startMs)
      (aggregateToSessions envPlain [evC1a, evC1b] bst0) :=
  ⟨by decide, sessions_sorted_by_start envPlain [evC1a, evC1b] bst0 (by decide)⟩

/-! ## C4: idle coalescing - definitions and step lemmas -/

/-- Whether the sweep state has an open accumulator with at least one
member event. -/
def curOpenB (st : AggState) : Bool :=
  match st.cur with
  | some c => !c.events.isEmpty
  | none => false

/-- Whether the last emitted session is idle. -/
def lastIsIdle (ss : List ActivitySession) : Bool :=
  match ss.getLast? with
  | some s => s.type == "idle"
  | none => false

/-- The idle sessions of an output list, projected to their start, end
and duration. -/
def idleProj (ss : List ActivitySession) : List (Int × Int × Int) :=
  (ss.filter (fun s => s.type == "idle")).map (fun s => (s.startMs, s.endMs, s.duration))

/-- The maximal runs of consecutive idle events of a batch, in order
(accumulator-passing; acc holds the current run reversed). -/
def idleRunsGo : List Event → List Event → List (List Event)
  | acc, [] => if acc.isEmpty then [] else [acc.reverse]
  | acc, e :: es =>
    if e.isIdle then idleRunsGo (e :: acc) es
    else if acc.isEmpty then idleRunsGo [] es
    else acc.reverse :: idleRunsGo [] es

/-- The maximal runs of consecutive idle events of a batch. -/
def idleRuns (es : List Event) : List (List Event) := idleRunsGo [] es

/-- The timestamp of the first event of a run. -/
def runStart (r : List Event) : Int := (r.headD defaultEvent).timestampMs

/-- The end instant the sweep records for the idle session of a run: a
one-event run keeps start plus duration; a longer run was extended to
the timestamp of its last idle event. -/
def runEnd (r : List Event) : Int :=
  if r.length ≤ 1 then
    (r.headD defaultEvent).timestampMs + evDuration (r.headD defaultEvent) * 1000
  else (r.getLastD defaultEvent).timestampMs

/-- The summed durations of a run (each defaulting to 5 when absent). -/
def runSum (r : List Event) : Int := (r.map evDuration).sum

/-- The (start, end, duration) triple of the idle session of a run. -/
def runProj (r : List Event) : Int × Int × Int := (runStart r, runEnd r, runSum r)

/-- The idle-session triples the sweep is expected to emit for the
remaining events, given the open glue state: some (start, end, dur) when
the previous output session is idle and extendable. -/
def idleSpecGo : Option (Int × Int × Int) → List Event → List (Int × Int × Int)
  | g, [] =>
    (match g with
     | some t => [t]
     | none => [])
  | g, e :: es =>
    if e.isIdle then
      match g with
      | some (st0, _, dur) =>
        idleSpecGo (some (st0, e.timestampMs, dur + evDuration e)) es
      | none =>
        idleSpecGo (some (e.timestampMs, e.timestampMs + evDuration e * 1000, evDuration e)) es
    else
      match g with
      | some t => t :: idleSpecGo none es
      | none => idleSpecGo none es

theorem idleProj_append_active (l : List ActivitySession) (s : ActivitySession)
    (h : (s.type == "idle") = false) : idleProj (l ++ [s]) = idleProj l := by
  simp [idleProj, List.filter_append, h]

theorem idleProj_append_idle (l : List ActivitySession) (s : ActivitySession)
    (h : (s.type == "idle") = true) :
    idleProj (l ++ [s]) = idleProj l ++ [(s.startMs, s.endMs, s.duration)] := by
  simp [idleProj, List.filter_append, h]

theorem updateLast_append_last (f : ActivitySession → ActivitySession) :
    ∀ (l0 : List ActivitySession) (s0 : ActivitySession),
      updateLast f (l0 ++ [s0]) = l0 ++ [f s0] := by
  intro l0
  induction l0 with
  | nil => intro s0; rfl
  | cons a m ih =>
    intro s0
    cases m with
    | nil => rfl
    | cons b m2 =>
      rw [List.cons_append, List.cons_append, updateLast_cons_cons,
        ← List.cons_append, ih]
      rfl

theorem closeCur_closed (env : AggEnv) (st : AggState) (h : curOpenB st = false) :
    closeCur env st = st := by
  unfold closeCur
  cases hcur : st.cur with
  | none => rfl
  | some c =>
    dsimp only
    rw [if_neg]
    unfold curOpenB at h
    rw [hcur] at h
    simp only [Bool.not_eq_false'] at h
    rw [List.isEmpty_iff] at h
    rw [h]
    simp

theorem closeCur_open (env : AggEnv) (st : AggState) (c : CurrentSession)
    (hcur : st.cur = some c) (hev : c.events ≠ []) :
    closeCur env st = pushFinalized env st c := by
  unfold closeCur
  rw [hcur]
  dsimp only
  rw [if_pos]
  cases hce : c.events with
  | nil => exact absurd hce hev
  | cons a l => simp

theorem finishAgg_closed (env : AggEnv) (st : AggState) (h : curOpenB st = false) :
    finishAgg env st = st.sessions := by
  unfold finishAgg
  cases hcur : st.cur with
  | none => rfl
  | some c =>
    dsimp only
    rw [if_neg]
    unfold curOpenB at h
    rw [hcur] at h
    simp only [Bool.not_eq_false'] at h
    rw [List.isEmpty_iff] at h
    rw [h]
    simp

theorem finishAgg_open (env : AggEnv) (st : AggState) (c : CurrentSession)
    (hcur : st.cur = some c) (hev : c.events ≠ []) :
    finishAgg env st = st.sessions ++ [finalizeSession env.uuid st.counter c] := by
  unfold finishAgg
  rw [hcur]
  dsimp only
  rw [if_pos]
  · rfl
  · cases hce : c.events with
    | nil => exact absurd hce hev
    | cons a l => simp

theorem emitIdle_nil (env : AggEnv) (st1 : AggState) (e : Event)
    (h : st1.sessions = []) :
    emitIdle env st1 e = { st1 with
      sessions := st1.sessions ++ [newIdleSession env.uuid st1.counter e none],
      counter := st1.counter + 1 } := by
  unfold emitIdle
  rw [h]
  rfl

theorem emitIdle_last_idle (env : AggEnv) (st1 : AggState) (e : Event)
    (ss0 : List ActivitySession) (s0 : ActivitySession)
    (hss : st1.sessions = ss0 ++ [s0]) (hty : s0.type = "idle") :
    emitIdle env st1 e = { st1 with sessions := ss0 ++ [{ s0 with endMs := e.timestampMs, duration := s0.duration + evDuration e }] } := by
  unfold emitIdle
  rw [hss, List.getLast?_concat]
  dsimp only
  rw [if_pos hty, updateLast_append_last]

theorem emitIdle_last_other (env : AggEnv) (st1 : AggState) (e : Event)
    (ss0 : List ActivitySession) (s0 : ActivitySession)
    (hss : st1.sessions = ss0 ++ [s0]) (hty : ¬ s0.type = "idle") :
    emitIdle env st1 e = { st1 with
      sessions := (ss0 ++ [s0]) ++ [newIdleSession env.uuid st1.counter e s0.category],
      counter := st1.counter + 1 } := by
  unfold emitIdle
  rw [hss, List.getLast?_concat]
  dsimp only
  rw [if_neg hty]

theorem finalize_not_idle (u : Nat → String) (n : Nat) (c : CurrentSession) :
    ¬ (finalizeSession u n c).type = "idle" := by
  intro h
  rw [show (finalizeSession u n c).type = "active" from rfl] at h
  exact absurd h (by decide)

theorem curOpen_iff (st : AggState) :
    curOpenB st = true ↔ ∃ c, st.cur = some c ∧ c.events ≠ [] := by
  unfold curOpenB
  cases hcur : st.cur with
  | none => simp
  | some c => simp [List.isEmpty_iff]

theorem idle_sim (env : AggEnv) : ∀ (es : List Event) (st : AggState),
    ((curOpenB st = true ∨ lastIsIdle st.sessions = false) →
      idleProj (finishAgg env (aggGo env st es)) =
        idleProj st.sessions ++ idleSpecGo none es) ∧
    (curOpenB st = false → ∀ ss0 s0, st.sessions = ss0 ++ [s0] → s0.type = "idle" →
      idleProj (finishAgg env (aggGo env st es)) =
        idleProj ss0 ++ idleSpecGo (some (s0.startMs, s0.endMs, s0.duration)) es) := by
  intro es
  induction es with
  | nil =>
    intro st
    constructor
    · intro _
      rw [show aggGo env st [] = st from rfl]
      cases hco : curOpenB st with
      | false =>
        rw [finishAgg_closed env st hco]
        simp [idleSpecGo]
      | true =>
        obtain ⟨c, hcur, hev⟩ := (curOpen_iff st).mp hco
        rw [finishAgg_open env st c hcur hev]
        rw [idleProj_append_active _ _ (by rfl)]
        simp [idleSpecGo]
    · intro hclosed ss0 s0 hss hty
      rw [show aggGo env st [] = st from rfl]
      rw [finishAgg_closed env st hclosed, hss]
      rw [idleProj_append_idle _ _ (by rw [hty]; rfl)]
      simp [idleSpecGo]
  | cons e es2 ih =>
    intro st
    have hgo : aggGo env st (e :: es2) = aggGo env (aggStep env st e) es2 := rfl
    by_cases hidle : e.isIdle = true
    · have hstep : aggStep env st e = emitIdle env (closeCur env st) e := by
        unfold aggStep
        rw [if_pos hidle]
      constructor
      · intro hpre
        rw [hgo, hstep]
        cases hco : curOpenB st with
        | true =>
          obtain ⟨c, hcur, hev⟩ := (curOpen_iff st).mp hco
          rw [closeCur_open env st c hcur hev]
          have hemit := emitIdle_last_other env (pushFinalized env st c) e
            st.sessions (finalizeSession env.uuid st.counter c) rfl
            (finalize_not_idle env.uuid st.counter c)
          have h2 := (ih (emitIdle env (pushFinalized env st c) e)).2
            (by rw [hemit]; rfl)
            (st.sessions ++ [finalizeSession env.uuid st.counter c])
            (newIdleSession env.uuid (pushFinalized env st c).counter e
              (finalizeSession env.uuid st.counter c).category)
            (by rw [hemit])
            rfl
          rw [h2]
          rw [idleProj_append_active _ _ (by rfl)]
          simp [idleSpecGo, hidle, newIdleSession]
        | false =>
          have hcc := closeCur_closed env st hco
          rw [hcc]
          have hlast : lastIsIdle st.sessions = false := by
            rcases hpre with h | h
            · rw [hco] at h; cases h
            · exact h
          cases hsess : st.sessions.getLast? with
          | none =>
            have hnil : st.sessions = [] := List.getLast?_eq_none_iff.mp hsess
            have hemit := emitIdle_nil env st e hnil
            have h2 := (ih (emitIdle env st e)).2
              (by rw [hemit]; exact hco)
              st.sessions
              (newIdleSession env.uuid st.counter e none)
              (by rw [hemit])
              rfl
            rw [h2]
            simp [idleSpecGo, hidle, newIdleSession]
          | some s0 =>
            obtain ⟨ss0, hss⟩ := List.getLast?_eq_some_iff.mp hsess
            have hty : ¬ s0.type = "idle" := by
              unfold lastIsIdle at hlast
              rw [hsess] at hlast
              simpa using hlast
            have hemit := emitIdle_last_other env st e ss0 s0 hss hty
            have h2 := (ih (emitIdle env st e)).2
              (by rw [hemit]; exact hco)
              (ss0 ++ [s0])
              (newIdleSession env.uuid st.counter e s0.category)
              (by rw [hemit])
              rfl
            rw [h2, ← hss]
            simp [idleSpecGo, hidle, newIdleSession]
      · intro hclosed ss0 s0 hss hty
        have hemit := emitIdle_last_idle env st e ss0 s0 hss hty
        have h2 := (ih (emitIdle env st e)).2
          (by rw [hemit]; exact hclosed)
          ss0
          ({ s0 with endMs := e.timestampMs, duration := s0.duration + evDuration e })
          (by rw [hemit])
          hty
        rw [hgo, hstep, closeCur_closed env st hclosed, h2]
        simp [idleSpecGo, hidle]
    · have hidle2 : e.isIdle = false := by
        revert hidle
        cases e.isIdle <;> simp
      have hspec1 : idleSpecGo none (e :: es2) = idleSpecGo none es2 := by
        simp [idleSpecGo, hidle2]
      constructor
      · intro _
        rw [hgo]
        rcases hcur : st.cur with _ | c
        · rw [aggStep_active_none env st e hidle2 hcur]
          have hopen2 : curOpenB { st with cur := some (newCurrentSession env e) } = true := by
            unfold curOpenB
            dsimp only
            rw [newCurrentSession_events]
            rfl
          have h2 := (ih _).1 (Or.inl hopen2)
          rw [h2, hspec1]
        · by_cases hcond : (((shouldMergeEvents env.benv st.bst (c.events.getLastD defaultEvent) e).1.shouldMerge &&
              decide ((shouldMergeEvents env.benv st.bst (c.events.getLastD defaultEvent) e).1.confidence ≥
                mkRat 7 10)) = true)
          · obtain ⟨c4, hc4, hstep2⟩ := aggStep_active_merge env st c e hidle2 hcur hcond
            rw [hstep2]
            have hopen2 : curOpenB { st with
                bst := (shouldMergeEvents env.benv st.bst (c.events.getLastD defaultEvent) e).2,
                cur := some c4 } = true := by
              unfold curOpenB
              dsimp only
              rw [hc4]
              cases c.events <;> simp
            have h2 := (ih _).1 (Or.inl hopen2)
            rw [h2, hspec1]
          · rw [aggStep_active_split env st c e hidle2 hcur hcond]
            have hopen2 : curOpenB { st with
                sessions := st.sessions ++ [finalizeSession env.uuid st.counter c],
                bst := (shouldMergeEvents env.benv st.bst (c.events.getLastD defaultEvent) e).2,
                counter := st.counter + 1,
                cur := some (newCurrentSession env e) } = true := by
              unfold curOpenB
              dsimp only
              rw [newCurrentSession_events]
              rfl
            have h2 := (ih _).1 (Or.inl hopen2)
            rw [h2, hspec1]
            rw [idleProj_append_active _ _ (by rfl)]
      · intro hclosed ss0 s0 hss hty
        have hbeq : (s0.type == "idle") = true := by rw [hty]; rfl
        have hspec2 : idleProj st.sessions ++ idleSpecGo none es2 =
            idleProj ss0 ++ idleSpecGo (some (s0.startMs, s0.endMs, s0.duration)) (e :: es2) := by
          rw [hss, idleProj_append_idle _ _ hbeq]
          simp [idleSpecGo, hidle2]
        rw [hgo]
        rcases hcur : st.cur with _ | c
        · rw [aggStep_active_none env st e hidle2 hcur]
          have hopen2 : curOpenB { st with cur := some (newCurrentSession env e) } = true := by
            unfold curOpenB
            dsimp only
            rw [newCurrentSession_events]
            rfl
          have h2 := (ih _).1 (Or.inl hopen2)
          rw [h2, hspec2]
        · by_cases hcond : (((shouldMergeEvents env.benv st.bst (c.events.getLastD defaultEvent) e).1.shouldMerge &&
              decide ((shouldMergeEvents env.benv st.bst (c.events.getLastD defaultEvent) e).1.confidence ≥
                mkRat 7 10)) = true)
          · obtain ⟨c4, hc4, hstep2⟩ := aggStep_active_merge env st c e hidle2 hcur hcond
            rw [hstep2]
            have hopen2 : curOpenB { st with
                bst := (shouldMergeEvents env.benv st.bst (c.events.getLastD defaultEvent) e).2,
                cur := some c4 } = true := by
              unfold curOpenB
              dsimp only
              rw [hc4]
              cases c.events <;> simp
            have h2 := (ih _).1 (Or.inl hopen2)
            rw [h2, hspec2]
          · rw [aggStep_active_split env st c e hidle2 hcur hcond]
            have hopen2 : curOpenB { st with
                sessions := st.sessions ++ [finalizeSession env.uuid st.counter c],
                bst := (shouldMergeEvents env.benv st.bst (c.events.getLastD defaultEvent) e).2,
                counter := st.counter + 1,
                cur := some (newCurrentSession env e) } = true := by
              unfold curOpenB
              dsimp only
              rw [newCurrentSession_events]
              rfl
            have h2 := (ih _).1 (Or.inl hopen2)
            rw [h2]
            rw [idleProj_append_active _ _ (by rfl), hspec2]

theorem headD_append (r : List Event) (e : Event) (hr : r ≠ []) :
    (r ++ [e]).headD defaultEvent = r.headD defaultEvent := by
  cases r with
  | nil => exact absurd rfl hr
  | cons a l => rfl

theorem reverse_isEmpty_false (r : List Event) (hr : r ≠ []) :
    r.reverse.isEmpty = false := by
  cases hre : r.reverse with
  | nil => exact absurd (List.reverse_eq_nil_iff.mp hre) hr
  | cons a l => rfl

theorem idleSpecGo_runs : ∀ es : List Event,
    (idleSpecGo none es = (idleRunsGo [] es).map runProj) ∧
    (∀ r : List Event, r ≠ [] →
      idleSpecGo (some (runStart r, runEnd r, runSum r)) es =
        (idleRunsGo r.reverse es).map runProj) := by
  intro es
  induction es with
  | nil =>
    constructor
    · rfl
    · intro r hr
      have h2 := reverse_isEmpty_false r hr
      simp [idleSpecGo, idleRunsGo, h2, runProj]
  | cons e es ihs =>
    obtain ⟨ih1, ih2⟩ := ihs
    constructor
    · by_cases hidle : e.isIdle = true
      · have h1 := ih2 [e] (by simp)
        have hs : runStart [e] = e.timestampMs := rfl
        have he : runEnd [e] = e.timestampMs + evDuration e * 1000 := by simp [runEnd]
        have hm : runSum [e] = evDuration e := by simp [runSum]
        rw [show idleSpecGo none (e :: es) =
            idleSpecGo (some (e.timestampMs, e.timestampMs + evDuration e * 1000, evDuration e)) es
          from by simp [idleSpecGo, hidle]]
        rw [show idleRunsGo [] (e :: es) = idleRunsGo [e] es from by simp [idleRunsGo, hidle]]
        rw [hs, he, hm] at h1
        simpa using h1
      · simpa [idleSpecGo, idleRunsGo, hidle] using ih1
    · intro r hr
      by_cases hidle : e.isIdle = true
      · have h1 := ih2 (r ++ [e]) (by simp)
        have hs : runStart (r ++ [e]) = runStart r := by
          unfold runStart
          rw [headD_append r e hr]
        have he : runEnd (r ++ [e]) = e.timestampMs := by
          unfold runEnd
          rw [if_neg, List.getLastD_concat]
          have hpos : 0 < r.length := List.length_pos.mpr hr
          simp only [List.length_append, List.length_cons, List.length_nil]
          omega
        have hm : runSum (r ++ [e]) = runSum r + evDuration e := by
          simp [runSum, List.map_append]
        have hrev : (r ++ [e]).reverse = e :: r.reverse := by simp
        rw [hrev, hs, he, hm] at h1
        rw [show idleSpecGo (some (runStart r, runEnd r, runSum r)) (e :: es) =
            idleSpecGo (some (runStart r, e.timestampMs, runSum r + evDuration e)) es
          from by simp [idleSpecGo, hidle]]
        rw [show idleRunsGo r.reverse (e :: es) = idleRunsGo (e :: r.reverse) es
          from by simp [idleRunsGo, hidle]]
        exact h1
      · have h2 := reverse_isEmpty_false r hr
        rw [show idleSpecGo (some (runStart r, runEnd r, runSum r)) (e :: es) =
            (runStart r, runEnd r, runSum r) :: idleSpecGo none es
          from by simp [idleSpecGo, hidle]]
        rw [show idleRunsGo r.reverse (e :: es) = r.reverse.reverse :: idleRunsGo [] es
          from by simp [idleRunsGo, hidle, h2]]
        simp [runProj, ih1]

/-- C4: for every batch, the idle sessions of the output correspond one
to one and in order to the maximal runs of consecutive idle events: one
idle session per run, starting at the run first-event timestamp, with
duration the sum of the run event durations (each defaulting to 5 when
absent), and ending at start plus duration for a one-event run or at the
last idle-event timestamp for a coalesced run. -/
theorem idle_sessions_are_idle_runs (env : AggEnv) (es : List Event) (bst : BoundaryState) :
    idleProj (aggregateToSessions env es bst) = (idleRuns es).map runProj := by
  have h := (idle_sim env es (initState bst)).1 (Or.inr rfl)
  rw [show aggregateToSessions env es bst = finishAgg env (aggGo env (initState bst) es) from rfl]
  rw [h]
  rw [show idleProj (initState bst).sessions = [] from rfl]
  rw [List.nil_append]
  exact (idleSpecGo_runs es).1

/-! ## C8: category resolution order and wildcard semantics -/

/-- Wildcard matching as the specification words it: with both sides
lowercased (the regex i flag), each star consumes an arbitrary run of
characters, every other pattern character - the dot included, since the
source escapes it - matches itself literally, and the whole domain must
be consumed (the source anchors the regex at both ends). -/
inductive SpecGlob : List Char → List Char → Prop
  | nil : SpecGlob [] []
  | lit {c : Char} {ps cs : List Char} : c ≠ '*' → SpecGlob ps cs → SpecGlob (c :: ps) (c :: cs)
  | star_skip {ps cs : List Char} : SpecGlob ps cs → SpecGlob ('*' :: ps) cs
  | star_take {ps cs : List Char} {c : Char} :
      SpecGlob ('*' :: ps) cs → SpecGlob ('*' :: ps) (c :: cs)

theorem specGlob_star_of_suffix {ps : List Char} :
    ∀ (pre t : List Char), SpecGlob ps t → SpecGlob ('*' :: ps) (pre ++ t) := by
  intro pre
  induction pre with
  | nil => intro t h; exact SpecGlob.star_skip h
  | cons a pre ih => intro t h; exact SpecGlob.star_take (ih t h)

theorem specGlob_star_elim {ps : List Char} :
    ∀ {cs : List Char}, SpecGlob ('*' :: ps) cs → ∃ t, t <:+ cs ∧ SpecGlob ps t := by
  intro cs
  induction cs with
  | nil =>
    intro h
    cases h with
    | star_skip h2 => exact ⟨[], List.suffix_refl [], h2⟩
  | cons c cs ih =>
    intro h
    cases h with
    | lit hne _ => exact absurd rfl hne
    | star_skip h2 => exact ⟨c :: cs, List.suffix_refl _, h2⟩
    | star_take h2 =>
      obtain ⟨t, hsuf, hsg⟩ := ih h2
      exact ⟨t, hsuf.trans (List.suffix_cons c cs), hsg⟩

theorem globAux_iff : ∀ (ps cs : List Char), globAux ps cs = true ↔ SpecGlob ps cs := by
  intro ps
  induction ps with
  | nil =>
    intro cs
    constructor
    · intro h
      have hcs : cs = [] := by simpa [globAux, List.isEmpty_iff] using h
      rw [hcs]
      exact SpecGlob.nil
    · intro h
      cases h
      rfl
  | cons c ps ih =>
    intro cs
    by_cases hstar : c = '*'
    · subst hstar
      constructor
      · intro h
        have h2 : ∃ t ∈ cs.tails, globAux ps t = true := by
          simpa [globAux, List.any_eq_true] using h
        obtain ⟨t, ht, hglob⟩ := h2
        have hsuffix : t <:+ cs := (List.mem_tails t cs).mp ht
        obtain ⟨pre, hpre⟩ := hsuffix
        rw [← hpre]
        exact specGlob_star_of_suffix pre t ((ih t).mp hglob)
      · intro h
        obtain ⟨t, hsuf, hsg⟩ := specGlob_star_elim h
        have h2 : ∃ t ∈ cs.tails, globAux ps t = true :=
          ⟨t, (List.mem_tails t cs).mpr hsuf, (ih t).mpr hsg⟩
        simpa [globAux, List.any_eq_true] using h2
    · constructor
      · intro h
        cases cs with
        | nil => simp [globAux, hstar] at h
        | cons d cs2 =>
          have h2 : c = d ∧ globAux ps cs2 = true := by
            simpa [globAux, hstar] using h
          obtain ⟨rfl, h3⟩ := h2
          exact SpecGlob.lit hstar ((ih cs2).mp h3)
      · intro h
        cases h with
        | lit hne h2 =>
          simp only [globAux, if_neg hstar]
          simp [(ih _).mpr h2]
        | star_skip h2 => exact absurd rfl hstar
        | star_take h2 => exact absurd rfl hstar

/-- Category resolution exactly as the specification words it: bundle id
exact match, then application-name exact match, then - only when the
event carries a URL with a domain - exact domain match, then the ordered
wildcard patterns, and null when nothing matches. -/
def specCategoryFor (L : CategoryLookup) (e : Event) : Option String :=
  match e.bundleIdentifier.bind (fun b => L.bundles.lookup b) with
  | some c => some c
  | none =>
    match L.apps.lookup e.appName with
    | some c => some c
    | none =>
      match extractDomain e.url with
      | none => none
      | some d =>
        match L.domains.lookup d with
        | some c => some c
        | none => (L.domainPatterns.find? (fun pc => matchesDomainPattern d pc.1)).map Prod.snd

theorem lookup_mem : ∀ (l : List (String × String)) (k v : String),
    l.lookup k = some v → (k, v) ∈ l := by
  intro l
  induction l with
  | nil => intro k v h; cases h
  | cons p l ih =>
    intro k v h
    obtain ⟨a, b⟩ := p
    by_cases hk : (k == a) = true
    · have hkv : b = v := by simpa [List.lookup, hk] using h
      have hka : k = a := by simpa using hk
      rw [← hka, ← hkv]
      exact List.mem_cons_self (k, b) l
    · have h2 : l.lookup k = some v := by simpa [List.lookup, hk] using h
      exact List.mem_cons_of_mem (a, b) (ih k v h2)

theorem lookup_empty_none (l : List (String × String)) (h : ∀ p ∈ l, ¬ p.1 = "") :
    l.lookup "" = none := by
  cases hl : l.lookup "" with
  | none => rfl
  | some v => exact absurd rfl (h ("", v) (lookup_mem l "" v hl))

/-- C8: on any well-formed category snapshot (nonempty category values,
no empty bundle or domain keys) and any event whose URL does not parse
to an empty domain, getCategoryForEvent resolves in exactly the order
the specification states - bundle id, then app name, then (URL-bearing
events only) exact domain, then the ordered wildcard patterns, else null
- and wildcard matching is case-insensitive anchored glob matching: a
star matches any run of characters, every other character (the dot
included) only itself, over the entire domain, never a substring. -/
theorem category_resolution_order (L : CategoryLookup) (e : Event)
    (hb : ∀ p ∈ L.bundles, ¬ p.1 = "" ∧ ¬ p.2 = "")
    (ha : ∀ p ∈ L.apps, ¬ p.2 = "")
    (hd : ∀ p ∈ L.domains, ¬ p.1 = "" ∧ ¬ p.2 = "")
    (hnd : ¬ extractDomain e.url = some "") :
    getCategoryForEvent (some L) e = specCategoryFor L e ∧
    (∀ domain pattern : String, matchesDomainPattern domain pattern = true ↔
      SpecGlob (lowerStr pattern).data (lowerStr domain).data) := by
  refine ⟨?_, fun d p => globAux_iff (lowerStr p).data (lowerStr d).data⟩
  unfold getCategoryForEvent specCategoryFor
  have happ : (match L.apps.lookup e.appName with
      | some c => if c != "" then some c else none
      | none => none) = L.apps.lookup e.appName := by
    cases hl : L.apps.lookup e.appName with
    | none => rfl
    | some c =>
      have hc := ha (e.appName, c) (lookup_mem _ _ _ hl)
      simp [bne_iff_ne, hc]
  have hurl : (if optTruthy e.url = true then
      (match extractDomain e.url with
       | some d =>
         if (d != "") = true then
           (match (match L.domains.lookup d with
                   | some c => if c != "" then some c else none
                   | none => none) with
            | some c => some c
            | none => (L.domainPatterns.find? (fun pc => matchesDomainPattern d pc.1)).map Prod.snd)
         else none
       | none => none)
      else none) =
      (match extractDomain e.url with
       | none => none
       | some d =>
         match L.domains.lookup d with
         | some c => some c
         | none => (L.domainPatterns.find? (fun pc => matchesDomainPattern d pc.1)).map Prod.snd) := by
    cases hu : e.url with
    | none => simp [optTruthy, extractDomain]
    | some u =>
      by_cases hue : u = ""
      · subst hue
        simp [optTruthy, extractDomain]
      · have htru : optTruthy (some u) = true := by simpa [optTruthy] using hue
        rw [if_pos htru]
        cases hdom : extractDomain (some u) with
        | none => rfl
        | some d =>
          dsimp only
          have hdne : ¬ d = "" := by
            intro h0
            rw [hu] at hnd
            rw [h0] at hdom
            exact hnd hdom
          rw [if_pos (by simpa [bne_iff_ne] using hdne)]
          cases hl : L.domains.lookup d with
          | none => rfl
          | some c =>
            dsimp only
            have hc := (hd (d, c) (lookup_mem _ _ _ hl)).2
            simp [bne_iff_ne, hc]
  cases hbid : e.bundleIdentifier with
  | none =>
    rw [show optTruthy none = false from rfl]
    simp only [Bool.false_eq_true, if_false, Option.none_bind]
    rw [happ]
    cases L.apps.lookup e.appName with
    | some c => rfl
    | none =>
      dsimp only
      rw [hurl]
  | some b =>
    simp only [Option.some_bind]
    by_cases hbe : b = ""
    · subst hbe
      rw [show optTruthy (some "") = false from rfl]
      have hlb : L.bundles.lookup "" = none :=
        lookup_empty_none L.bundles (fun p hp => (hb p hp).1)
      simp only [Bool.false_eq_true, if_false, hlb]
      rw [happ]
      cases L.apps.lookup e.appName with
      | some c => rfl
      | none =>
        dsimp only
        rw [hurl]
    · have htru : optTruthy (some b) = true := by simpa [optTruthy] using hbe
      rw [if_pos htru]
      simp only [Option.getD]
      cases hl : L.bundles.lookup b with
      | some c =>
        dsimp only
        have hc := (hb (b, c) (lookup_mem _ _ _ hl)).2
        simp [bne_iff_ne, hc]
      | none =>
        dsimp only
        rw [happ]
        cases L.apps.lookup e.appName with
        | some c => rfl
        | none =>
          dsimp only
          rw [hurl]

/-- The snapshot used by the C8 witness. -/
def lookC8 : CategoryLookup :=
  { apps := [("Foo", "development")],
    bundles := [("com.example.app", "research")],
    domains := [("github.com", "development")],
    domainPatterns := [("*.example.com", "design")] }

/-- An event resolved only by the wildcard pattern of lookC8. -/
def evC8 : Event :=
  { appName := "Helium", windowTitle := "t", url := some "https://sub.example.com/x",
    timestampMs := 0, duration := some 5 }

/-- Witness: on the concrete snapshot lookC8 and event evC8 the source
resolution agrees with the specification order and lands on the wildcard
match design. -/
theorem category_resolution_order_witness :
    (∀ p ∈ lookC8.bundles, ¬ p.1 = "" ∧ ¬ p.2 = "") ∧
    (∀ p ∈ lookC8.apps, ¬ p.2 = "") ∧
    (∀ p ∈ lookC8.domains, ¬ p.1 = "" ∧ ¬ p.2 = "") ∧
    ¬ extractDomain evC8.url = some "" ∧
    getCategoryForEvent (some lookC8) evC8 = specCategoryFor lookC8 evC8 ∧
    getCategoryForEvent (some lookC8) evC8 = some "design" :=
  ⟨by decide, by decide, by decide, by decide,
    (category_resolution_order lookC8 evC8 (by decide) (by decide) (by decide) (by decide)).1,
    by decide⟩

end Chrono
